import Mathlib

/-!
SmartLeds: the RMT (v5) streaming encoder.

A shallow embedding of `src/src/RmtDriver5.cpp` (the functions `encEncode`, `encReset`,
`rmt_cache_sync_buffer` and `RmtDriver::init`) together with the pixel accessor `Rgb::getGrb`
that the encoder calls.

Conventions of the embedding.

* Bytes, counters and encoder states are natural numbers.  The encoder only copies bytes and
  counts upwards; the field widths of `RmtEncoderWrapper` are declared in `RmtDriver5.h`, which
  is not among the sources, so no wrap-around is modelled for `frame_idx`, `component_idx` and
  `buffer_len`.  Where the source itself narrows a value (the `uint16_t` casts and the 15-bit
  duration fields in `init`) the reduction is explicit.
* A pointer to a byte region is `Option (List Nat)`: `none` is `nullptr`, `some b` is a non-null
  pointer together with the current contents of the region.  A region keeps its length: a store
  at an offset outside it has no effect in the model.  `WellFormed` states that the region is as
  long as the recorded size, and under it the fill makes no such store.
* The pair `(primary_data, data_size)` is a `List Rgb`; `data_size` is its length.
* A call into the platform (the two sub-encoders, the allocator, the cache) is an external
  event.  Its answer is an argument of the embedded function, so that a statement quantified
  over the argument covers every behaviour of the platform.
-/

namespace SmartLeds

/-! ## Platform constants (ESP-IDF) -/

/-- The success code of `esp_err_t`. -/
def ESP_OK : Int := 0

/-- Bit 0 of `rmt_encode_state_t`: the encoding session finished. -/
def RMT_ENCODING_COMPLETE : Nat := 1

/-- Bit 1 of `rmt_encode_state_t`: the symbol memory is full, the session is not finished. -/
def RMT_ENCODING_MEM_FULL : Nat := 2

/-- The C test `state & flag` of a bit mask. -/
def hasFlag (state flag : Nat) : Bool := (state &&& flag) != 0

/-- The symbol word `rmt_symbol_word_t`: two durations of 15 bits and two levels of 1 bit. -/
structure rmt_symbol_word_t where
  duration0 : Nat
  level0 : Nat
  duration1 : Nat
  level1 : Nat
deriving DecidableEq

/-- The value of `sizeof(rmt_symbol_word_t)`: one 32-bit word. -/
def sizeof_rmt_symbol_word_t : Nat := 4

/-! ## Pixels -/

/-- The pixel record of `Color.h`, in its memory order `g, r, b, a` (the order that the test
"Rgb structure packing is correct" reads back byte by byte). -/
structure Rgb where
  g : Nat
  r : Nat
  b : Nat
  a : Nat
deriving DecidableEq

/-- Modelled from the spec: the constructor `Rgb(r, g, b, a)` of `Color.h`, which is not among
the sources.  It takes the channels in the order red, green, blue, alpha and stores each in
the field of the same name (tests "Rgb getGrb method works correctly" and "Rgb structure
packing is correct"). -/
def Rgb.ctor (r g b a : Nat) : Rgb := { g := g, r := r, b := b, a := a }

/-- Modelled from the spec: the accessor `Rgb::getGrb` of `Color.h`, which is not among the
sources.  It "maps a wire-order index (0,1,2) to the correct channel value": index 0 is green,
index 1 is red, index 2 is blue.  Neither the spec nor the tests fix a value for another index;
the model answers 0 there and no theorem below relies on it. -/
def Rgb.getGrb (p : Rgb) (idx : Nat) : Nat :=
  match idx with
  | 0 => p.g
  | 1 => p.r
  | 2 => p.b
  | _ => 0

/-- Modelled from the spec: one accessor call on element `i` of a pixel array, as a step on the
array.  `Rgb::getGrb` is not among the sources; the spec and the tests describe a `const`
accessor ("no accessor call may mutate the pixel or leak state into other pixels"), so the step
returns the channel value together with the array it leaves behind.  An index outside the array
is no call at all. -/
def getGrbAt (pixels : List Rgb) (i idx : Nat) : Option (Nat × List Rgb) :=
  match pixels[i]? with
  | some p => some (p.getGrb idx, pixels)
  | none => none

/-- The bytes of a pixel sequence in wire order: green, red, blue of every pixel in turn. -/
def wireBytes (pixels : List Rgb) : List Nat :=
  match pixels with
  | [] => []
  | p :: ps => p.getGrb 0 :: p.getGrb 1 :: p.getGrb 2 :: wireBytes ps

/-! ## Encoder session state -/

/-- The struct `RmtEncoderWrapper` as far as `RmtDriver5.cpp` uses it.  The handles `base`,
`bytes_encoder` and `copy_encoder` belong to the platform and carry no modelled state.
`buffer` is the dynamically allocated region (or `nullptr`).  `buffer_nc` is the second address
of the same region computed by `RMT_GET_NON_CACHE_ADDR`; it owns no storage of its own, so only
whether it is null is recorded. -/
structure RmtEncoderWrapper where
  reset_code : rmt_symbol_word_t
  last_state : Nat
  frame_idx : Nat
  component_idx : Nat
  buffer : Option (List Nat)
  buffer_nc : Bool
  buffer_size : Nat
  buffer_len : Nat
deriving DecidableEq

/-- The whole state that `encEncode` can touch: the wrapper and the two function-local
`static uint8_t fallback_buffer[SOC_RMT_MEM_WORDS_PER_CHANNEL / 8]` arrays.  The source declares
that name twice, in two different blocks of `encEncode` (line 56, inside the fill block, and
line 109, where the buffer for the bytes encoder is chosen); each declaration is an object of
its own, so the state has one array for each. -/
structure Machine where
  self : RmtEncoderWrapper
  fallback_buffer_fill : List Nat
  fallback_buffer_encode : List Nat
deriving DecidableEq

/-- What a sub-encoder call produced: the number of symbols it returns and the value it leaves
in the state word it was given a pointer to. -/
structure SubAnswer where
  symbols : Nat
  state : Nat
deriving DecidableEq

/-- The sub-encoder call that one `encEncode` invocation makes, with its data arguments. -/
inductive Delegated where
  | toCopy (code : rmt_symbol_word_t) (size : Nat)
  | toBytes (encode_buffer : List Nat) (len : Nat)
deriving DecidableEq

/-- The path one `encEncode` invocation takes. -/
inductive Branch where
  | resetSymbol
  | filledChunk
  | continuedChunk
deriving DecidableEq

/-- The outcome of one `encEncode` invocation: the state it leaves, the path it took, the
sub-encoder call it made, its return value and the value stored through `ret_state`. -/
structure EncodeResult where
  machine : Machine
  branch : Branch
  handed : Delegated
  symbols : Nat
  ret_state : Nat
deriving DecidableEq

/-! ## The fill of the scratch buffer (`encEncode`, lines 54-100) -/

/-- The C call `memset(p, 0, n)` on a region: the first `n` bytes become 0. -/
def memset0 : List Nat → Nat → List Nat
  | [], _ => []
  | b :: bs, 0 => b :: bs
  | _ :: bs, n + 1 => 0 :: memset0 bs n

/-- The variables of the fill loop: the region behind `buffer_ptr`, `buffer_pos`,
`self->frame_idx` and `self->component_idx`. -/
structure FillState where
  buf : List Nat
  buffer_pos : Nat
  frame_idx : Nat
  component_idx : Nat
deriving DecidableEq

/-- The loop `while (buffer_pos < buffer_size && self->frame_idx < data_size) { ... }` of lines
77-92, iterated at most `fuel` times.  The pixel is read under the loop guard, which is the proof
that the index is inside the array. -/
def fillLoop (primary_data : List Rgb) (buffer_size : Nat) : Nat → FillState → FillState
  | 0, s => s
  | fuel + 1, s =>
    if h : s.buffer_pos < buffer_size ∧ s.frame_idx < primary_data.length then
      let pixel : Rgb := primary_data[s.frame_idx]
      let color_byte := pixel.getGrb s.component_idx
      let buf := s.buf.set s.buffer_pos color_byte
      let buffer_pos := s.buffer_pos + 1
      let component_idx := s.component_idx + 1
      if component_idx ≥ 3 then
        fillLoop primary_data buffer_size fuel
          { buf := buf, buffer_pos := buffer_pos, frame_idx := s.frame_idx + 1, component_idx := 0 }
      else
        fillLoop primary_data buffer_size fuel
          { buf := buf, buffer_pos := buffer_pos, frame_idx := s.frame_idx,
            component_idx := component_idx }
    else s

/-- The region that the fill writes (`buffer_ptr`): the dynamic buffer when `self->buffer` is
non-null, else the `fallback_buffer` of line 56. -/
def scratch (m : Machine) : List Nat :=
  match m.self.buffer with
  | some b => b
  | none => m.fallback_buffer_fill

/-- The local `buffer_size` of the fill: `self->buffer_size` when `self->buffer` is non-null,
else `sizeof(fallback_buffer)`. -/
def capacity (m : Machine) : Nat :=
  match m.self.buffer with
  | some _ => m.self.buffer_size
  | none => m.fallback_buffer_fill.length

/-- The region that is handed to the bytes encoder (`encode_buffer`): the dynamic buffer when
`self->buffer` is non-null, else the `fallback_buffer` of line 109. -/
def encodeBuffer (m : Machine) : List Nat :=
  match m.self.buffer with
  | some b => b
  | none => m.fallback_buffer_encode

/-- Lines 58-92: choose the region and its size, clear the region and run the fill loop from
`buffer_pos = 0`.  Every iteration advances `buffer_pos`, so `buffer_size` iterations exhaust
the loop (`fillLoop_exits`). -/
def fillResult (m : Machine) (primary_data : List Rgb) : FillState :=
  let buffer_size := capacity m
  fillLoop primary_data buffer_size buffer_size
    { buf := memset0 (scratch m) buffer_size, buffer_pos := 0, frame_idx := m.self.frame_idx,
      component_idx := m.self.component_idx }

/-- Lines 55-99: the fill, with its results stored: the region that was written, the cursor and
`buffer_len = buffer_pos`.  The cache synchronisation of line 98 changes no modelled state. -/
def fillChunk (m : Machine) (primary_data : List Rgb) : Machine :=
  let s := fillResult m primary_data
  let self1 : RmtEncoderWrapper :=
    { m.self with frame_idx := s.frame_idx, component_idx := s.component_idx,
                  buffer_len := s.buffer_pos }
  match m.self.buffer with
  | some _ => { m with self := { self1 with buffer := some s.buf } }
  | none => { m with self := self1, fallback_buffer_fill := s.buf }

/-- A store into `self->last_state`. -/
def withLastState (m : Machine) (state : Nat) : Machine :=
  { m with self := { m.self with last_state := state } }

/-! ## `encEncode` and `encReset` -/

/-- The function `encEncode` (lines 43-122).  `answer` is what the one sub-encoder that this
invocation calls produces: the copy encoder on the reset path, the bytes encoder otherwise.  On
the reset path the copy encoder writes its state through `ret_state`; on the other path line 102
clears `self->last_state` and the bytes encoder then writes its state into it. -/
def encEncode (m : Machine) (primary_data : List Rgb) (answer : SubAnswer) : EncodeResult :=
  let data_size := primary_data.length
  if hasFlag m.self.last_state RMT_ENCODING_COMPLETE ∧ m.self.frame_idx = data_size then
    { machine := m
      branch := Branch.resetSymbol
      handed := Delegated.toCopy m.self.reset_code sizeof_rmt_symbol_word_t
      symbols := answer.symbols
      ret_state := answer.state }
  else
    let filled := hasFlag m.self.last_state RMT_ENCODING_COMPLETE
    let m1 := if filled then fillChunk m primary_data else m
    let encode_buffer := encodeBuffer m1
    { machine := withLastState m1 answer.state
      branch := if filled then Branch.filledChunk else Branch.continuedChunk
      handed := Delegated.toBytes encode_buffer m1.self.buffer_len
      symbols := answer.symbols
      ret_state :=
        if hasFlag answer.state RMT_ENCODING_MEM_FULL then RMT_ENCODING_MEM_FULL else 0 }

/-- The function `encReset` (lines 124-132): the two sub-encoder resets are platform calls
without modelled state; the cursor returns to the start and the last chunk counts as complete.
The result is the returned `esp_err_t` and the new state. -/
def encReset (m : Machine) : Int × Machine :=
  (ESP_OK, { m with self := { m.self with last_state := RMT_ENCODING_COMPLETE,
                                           frame_idx := 0, component_idx := 0 } })

/-- The session state right after `encReset`, as `transmit` starts every transmission. -/
def resetSession (m : Machine) : Machine := (encReset m).2

/-- A transmission as the hardware replays it: one `encEncode` invocation per sub-encoder
answer, each starting from the state the previous one left. -/
def run (primary_data : List Rgb) : Machine → List SubAnswer → List EncodeResult
  | _, [] => []
  | m, a :: rest =>
    let o := encEncode m primary_data a
    o :: run primary_data o.machine rest

/-- The state after a replay. -/
def runFinal (primary_data : List Rgb) : Machine → List SubAnswer → Machine
  | m, [] => m
  | m, a :: rest => runFinal primary_data (encEncode m primary_data a).machine rest

/-- The chunk a fill produced: the first `buffer_len` bytes of the filled region. -/
def chunkOf (m : Machine) : List Nat := (scratch m).take m.self.buffer_len

/-- The chunks of a replay, in order: one for every invocation that filled the buffer. -/
def chunks : List EncodeResult → List (List Nat)
  | [] => []
  | o :: rest =>
    if o.branch = Branch.filledChunk then chunkOf o.machine :: chunks rest else chunks rest

/-- The `buffer_len` recorded by every fill of a replay, in order. -/
def fillLengths : List EncodeResult → List Nat
  | [] => []
  | o :: rest =>
    if o.branch = Branch.filledChunk then o.machine.self.buffer_len :: fillLengths rest
    else fillLengths rest

/-- The linear position of the cursor `(frame_idx, component_idx)` in the wire-order stream. -/
def cursor (m : Machine) : Nat := 3 * m.self.frame_idx + m.self.component_idx

/-- The dynamic buffer, when there is one, has the size recorded in `buffer_size` (`init`
allocates it so).  The fallback array always has its own size. -/
def WellFormed (m : Machine) : Prop := (scratch m).length = capacity m

instance (m : Machine) : Decidable (WellFormed m) := by
  unfold WellFormed
  infer_instance

/-- The cursor is inside a pixel and not beyond the end of the sequence, and the state is
well-formed: what every state of a transmission satisfies. -/
def Inv (pixels : List Rgb) (m : Machine) : Prop :=
  WellFormed m ∧ m.self.component_idx ≤ 2 ∧ cursor m ≤ 3 * pixels.length

/-! ## Channel setup (`RmtDriver::init`, lines 149-226) -/

/-- The constant `RMT_RESOLUTION_HZ` of line 36. -/
def RMT_RESOLUTION_HZ : Nat := 20 * 1000 * 1000

/-- The constant `RMT_NS_PER_TICK` of line 37, a `uint32_t`. -/
def RMT_NS_PER_TICK : Nat := (1000000000 / RMT_RESOLUTION_HZ) % 2 ^ 32

/-- The timing profile `LedType` (declared in a header that is not among the sources): four
bit durations and the reset gap, in nanoseconds. -/
structure LedType where
  T0H : Nat
  T1H : Nat
  T0L : Nat
  T1L : Nat
  TRS : Nat
deriving DecidableEq

/-- The configuration `rmt_bytes_encoder_config_t` that `init` builds. -/
structure rmt_bytes_encoder_config_t where
  bit0 : rmt_symbol_word_t
  bit1 : rmt_symbol_word_t
  msb_first : Nat
deriving DecidableEq

/-- A store into a 15-bit duration field of `rmt_symbol_word_t`. -/
def storeDuration (v : Nat) : Nat := v % 2 ^ 15

/-- The cast `uint16_t(v)`. -/
def toUint16 (v : Nat) : Nat := v % 2 ^ 16

/-- What the platform answers to the calls that `init` makes, and the two compile-time facts
the code depends on. -/
structure Platform where
  SOC_RMT_MEM_WORDS_PER_CHANNEL : Nat
  idf_at_least_5_1 : Bool
  calloc_ok : Bool
  data_cache_line_size : Nat
  msync_result : Int
  new_bytes_encoder_result : Int
  new_copy_encoder_result : Int
deriving DecidableEq

/-- The resource calls of `init`, in the order they are made. -/
inductive PlatformCall where
  | heap_caps_aligned_calloc
  | heap_caps_free
  | rmt_new_bytes_encoder
  | rmt_new_copy_encoder
  | rmt_del_encoder
deriving DecidableEq

/-- The function `rmt_cache_sync_buffer` (lines 21-32): the result of `esp_cache_msync` when the
IDF is recent enough, the data cache has lines and the buffer is non-null, else `ESP_OK`. -/
def rmt_cache_sync_buffer (pf : Platform) (buffer : Option (List Nat)) : Int :=
  if pf.idf_at_least_5_1 then
    if pf.data_cache_line_size ≠ 0 ∧ buffer.isSome then pf.msync_result else ESP_OK
  else ESP_OK

/-- The members of `RmtDriver` that `init` and `transmit` use. -/
structure RmtDriver where
  _timing : LedType
  _count : Nat
  _encoder : RmtEncoderWrapper
deriving DecidableEq

/-- The constructor of `RmtDriver` (lines 141-147): `_encoder {}` is value-initialised. -/
def RmtDriver.ctor (timing : LedType) (count : Nat) : RmtDriver :=
  { _timing := timing
    _count := count
    _encoder :=
      { reset_code := { duration0 := 0, level0 := 0, duration1 := 0, level1 := 0 }
        last_state := 0, frame_idx := 0, component_idx := 0
        buffer := none, buffer_nc := false, buffer_size := 0, buffer_len := 0 } }

/-- The outcome of `init`: the returned code, the driver, the configuration passed to
`rmt_new_bytes_encoder` and the resource calls made. -/
structure InitResult where
  err : Int
  driver : RmtDriver
  bytes_cfg : rmt_bytes_encoder_config_t
  calls : List PlatformCall
deriving DecidableEq

/-- The clean-up `if (_encoder.buffer) { heap_caps_free(...); buffer = nullptr; ... }` that
both failure paths of `init` run. -/
def releaseBuffer (e : RmtEncoderWrapper) : RmtEncoderWrapper × List PlatformCall :=
  match e.buffer with
  | some _ => ({ e with buffer := none, buffer_nc := false }, [PlatformCall.heap_caps_free])
  | none => (e, [])

/-- Lines 151-173 of `init`: record the size, allocate the zero-filled buffer, take its
non-cached address and synchronise the cache once; a failed synchronisation frees the buffer.
Without a buffer both pointers are null. -/
def initBuffer (pf : Platform) (e : RmtEncoderWrapper) : RmtEncoderWrapper × List PlatformCall :=
  let buffer_size := pf.SOC_RMT_MEM_WORDS_PER_CHANNEL / 8
  let e0 : RmtEncoderWrapper := { e with buffer_size := buffer_size }
  if pf.calloc_ok then
    let e1 : RmtEncoderWrapper :=
      { e0 with buffer := some (List.replicate buffer_size 0), buffer_nc := true }
    let cache_err := rmt_cache_sync_buffer pf e1.buffer
    if cache_err ≠ ESP_OK then
      ({ e1 with buffer := none, buffer_nc := false },
        [PlatformCall.heap_caps_aligned_calloc, PlatformCall.heap_caps_free])
    else (e1, [PlatformCall.heap_caps_aligned_calloc])
  else
    ({ e0 with buffer := none, buffer_nc := false }, [PlatformCall.heap_caps_aligned_calloc])

/-- Lines 181-197 of `init`: the four bit durations, each divided by `RMT_NS_PER_TICK`, cast to
`uint16_t` and stored in a 15-bit field. -/
def initBytesConfig (timing : LedType) : rmt_bytes_encoder_config_t :=
  { bit0 := { duration0 := storeDuration (toUint16 (timing.T0H / RMT_NS_PER_TICK))
              level0 := 1
              duration1 := storeDuration (toUint16 (timing.T0L / RMT_NS_PER_TICK))
              level1 := 0 }
    bit1 := { duration0 := storeDuration (toUint16 (timing.T1H / RMT_NS_PER_TICK))
              level0 := 1
              duration1 := storeDuration (toUint16 (timing.T1L / RMT_NS_PER_TICK))
              level1 := 0 }
    msb_first := 1 }

/-- The function `RmtDriver::init` (lines 149-226). -/
def RmtDriver.init (pf : Platform) (d : RmtDriver) : InitResult :=
  let alloc := initBuffer pf d._encoder
  -- line 179
  let e4 : RmtEncoderWrapper :=
    { alloc.1 with reset_code :=
        { alloc.1.reset_code with
            duration0 := storeDuration (d._timing.TRS / RMT_NS_PER_TICK) } }
  let bytes_cfg := initBytesConfig d._timing
  -- lines 199-208
  let err := pf.new_bytes_encoder_result
  if err ≠ ESP_OK then
    let cleaned := releaseBuffer e4
    { err := err, driver := { d with _encoder := cleaned.1 }, bytes_cfg := bytes_cfg
      calls := alloc.2 ++ [PlatformCall.rmt_new_bytes_encoder] ++ cleaned.2 }
  else
    -- lines 210-221
    let err := pf.new_copy_encoder_result
    if err ≠ ESP_OK then
      let cleaned := releaseBuffer e4
      { err := err, driver := { d with _encoder := cleaned.1 }, bytes_cfg := bytes_cfg
        calls := alloc.2 ++ [PlatformCall.rmt_new_bytes_encoder,
          PlatformCall.rmt_new_copy_encoder, PlatformCall.rmt_del_encoder] ++ cleaned.2 }
    else
      { err := ESP_OK, driver := { d with _encoder := e4 }, bytes_cfg := bytes_cfg
        calls := alloc.2 ++ [PlatformCall.rmt_new_bytes_encoder,
          PlatformCall.rmt_new_copy_encoder] }

/-- The state of a channel at the start of its life: the driver as `init` left it and the two
static fallback arrays as the program starts with them, zero-filled. -/
def newSession (pf : Platform) (timing : LedType) (count : Nat) : Machine :=
  { self := (RmtDriver.init pf (RmtDriver.ctor timing count)).driver._encoder
    fallback_buffer_fill := List.replicate (pf.SOC_RMT_MEM_WORDS_PER_CHANNEL / 8) 0
    fallback_buffer_encode := List.replicate (pf.SOC_RMT_MEM_WORDS_PER_CHANNEL / 8) 0 }

/-- The timing profile of the WS2812 strip used in the end-to-end scenario of the spec:
T0H = 350 ns and TRS = 280,000 ns (the other three durations are the usual WS2812 values). -/
def scenarioTiming : LedType :=
  { T0H := 350, T1H := 700, T0L := 800, T1L := 600, TRS := 280000 }

/-- The five pixels of the test "Multiple pixel access doesn't corrupt buffers": red, green,
blue, yellow, magenta (the alpha byte plays no part). -/
def scenarioPixels : List Rgb :=
  [Rgb.ctor 255 0 0 255, Rgb.ctor 0 255 0 255, Rgb.ctor 0 0 255 255, Rgb.ctor 255 255 0 255,
   Rgb.ctor 255 0 255 255]

/-- A platform with 48 symbol words per channel, hence a scratch capacity of 6 bytes, on which
every call of `init` succeeds. -/
def scenarioPlatform : Platform :=
  { SOC_RMT_MEM_WORDS_PER_CHANNEL := 48, idf_at_least_5_1 := true, calloc_ok := true
    data_cache_line_size := 32, msync_result := 0, new_bytes_encoder_result := 0
    new_copy_encoder_result := 0 }

/-- The same platform when the DMA-capable allocation fails: the encoder works on the static
fallback arrays. -/
def degradedPlatform : Platform := { scenarioPlatform with calloc_ok := false }

/-- A bytes encoder answer: 48 symbols written, input fully consumed. -/
def answerComplete : SubAnswer := { symbols := 48, state := RMT_ENCODING_COMPLETE }

/-- A bytes encoder answer: 48 symbols written, symbol memory full, input not yet consumed. -/
def answerMemFull : SubAnswer := { symbols := 48, state := RMT_ENCODING_MEM_FULL }

/-! ## Transmissions (`RmtDriver::transmit`, lines 283-287) -/

/-- The function `RmtDriver::transmit`: `rmt_encoder_reset` runs `encReset`, then the hardware
invokes `encEncode` on `(buffer, _count)`, once per sub-encoder answer.  A transmission that is
cut short is a shorter list of answers. -/
def transmit (m : Machine) (buffer : List Rgb) (answers : List SubAnswer) : Machine :=
  runFinal buffer (resetSession m) answers

/-- The state of a channel after a series of transmissions, oldest first; each is a pixel
sequence with the sub-encoder answers of its replay. -/
def sessionAfter : Machine → List (List Rgb × List SubAnswer) → Machine
  | m, [] => m
  | m, t :: rest => sessionAfter (transmit m t.1 t.2) rest

/-! ## The memory accesses of the fill loop -/

/-- One iteration of the fill loop as seen from memory: the index of the pixel read, the
component index passed to `getGrb` and the offset of the byte written. -/
structure FillAccess where
  pixel_index : Nat
  component : Nat
  offset : Nat
deriving DecidableEq

/-- The state in which `encEncode` enters the fill loop (lines 58-74): the cleared region,
`buffer_pos = 0` and the cursor of the session. -/
def fillStart (m : Machine) : FillState :=
  { buf := memset0 (scratch m) (capacity m), buffer_pos := 0, frame_idx := m.self.frame_idx,
    component_idx := m.self.component_idx }

/-- The fill loop of lines 77-92 again, iteration for iteration as `fillLoop`, returning the
accesses it makes instead of the state it reaches. -/
def fillAccesses (primary_data : List Rgb) (buffer_size : Nat) : Nat → FillState → List FillAccess
  | 0, _ => []
  | fuel + 1, s =>
    if h : s.buffer_pos < buffer_size ∧ s.frame_idx < primary_data.length then
      let pixel : Rgb := primary_data[s.frame_idx]
      let color_byte := pixel.getGrb s.component_idx
      let access : FillAccess :=
        { pixel_index := s.frame_idx, component := s.component_idx, offset := s.buffer_pos }
      let buf := s.buf.set s.buffer_pos color_byte
      let buffer_pos := s.buffer_pos + 1
      let component_idx := s.component_idx + 1
      if component_idx ≥ 3 then
        access :: fillAccesses primary_data buffer_size fuel
          { buf := buf, buffer_pos := buffer_pos, frame_idx := s.frame_idx + 1, component_idx := 0 }
      else
        access :: fillAccesses primary_data buffer_size fuel
          { buf := buf, buffer_pos := buffer_pos, frame_idx := s.frame_idx,
            component_idx := component_idx }
    else []

/-! ## `SmartLed::ledForChannel` (`SmartLeds.cpp`, lines 5-9) -/

/-- What a call of `ledForChannel` does with its argument: the assertion stops it, or it returns
the slot of the table at an index inside the table, or it indexes outside the table. -/
inductive TableAccess where
  | assertionFailed
  | slot (index : Nat)
  | outsideTable (index : Int)
deriving DecidableEq

/-- The expression `table[index]` on an array of `size` elements with an `int` index: the
element exists when `0 ≤ index < size`. -/
def indexTable (size : Nat) (index : Int) : TableAccess :=
  if 0 ≤ index ∧ index < (size : Int) then TableAccess.slot index.toNat
  else TableAccess.outsideTable index

/-- The function `SmartLed::ledForChannel`: `assert(channel < CHANNEL_COUNT)`, then
`table[channel]` on the static table of `CHANNEL_COUNT` slots.  `channel` is an `int`.  The
constant `led_timing::CHANNEL_COUNT` is declared in a header that is not among the sources, so it
is an argument. -/
def ledForChannel (CHANNEL_COUNT : Nat) (channel : Int) : TableAccess :=
  if channel < (CHANNEL_COUNT : Int) then indexTable CHANNEL_COUNT channel
  else TableAccess.assertionFailed

/-- A timing profile whose `T0H` is 1,638,400 ns, the smallest value whose tick count, 32768,
no longer fits a 15-bit field; the other durations are those of the scenario. -/
def longPulseTiming : LedType := { scenarioTiming with T0H := 1638400 }

/-! ## The wire-order stream -/

theorem wireBytes_length (pixels : List Rgb) : (wireBytes pixels).length = 3 * pixels.length := by
  induction pixels with
  | nil => rfl
  | cons p ps ih => simp only [wireBytes, List.length_cons, ih]; omega

theorem wireBytes_getElem? (pixels : List Rgb) (f c : Nat) (hf : f < pixels.length)
    (hc : c ≤ 2) : (wireBytes pixels)[3 * f + c]? = some (pixels[f].getGrb c) := by
  induction pixels generalizing f with
  | nil => simp at hf
  | cons p ps ih =>
    cases f with
    | zero =>
      have h3 : c = 0 ∨ c = 1 ∨ c = 2 := by omega
      rcases h3 with rfl | rfl | rfl <;> simp [wireBytes]
    | succ f =>
      have hf2 : f < ps.length := by simpa using hf
      have hidx : 3 * (f + 1) + c = (3 * f + c) + 1 + 1 + 1 := by omega
      simp only [wireBytes, hidx, List.getElem?_cons_succ, List.getElem_cons_succ]
      exact ih f hf2

/-! ## `memset` -/

theorem memset0_length (b : List Nat) (n : Nat) : (memset0 b n).length = b.length := by
  induction b generalizing n with
  | nil => simp [memset0]
  | cons x xs ih => cases n <;> simp [memset0, ih]

theorem memset0_getElem? (b : List Nat) (n i : Nat) :
    (memset0 b n)[i]? = if i < n ∧ i < b.length then some 0 else b[i]? := by
  induction b generalizing n i with
  | nil => simp [memset0]
  | cons x xs ih =>
    cases n with
    | zero => simp [memset0]
    | succ n =>
      cases i with
      | zero => simp [memset0]
      | succ i => simp [memset0, ih]

/-! ## The fill loop -/

/-- The fill loop never moves `buffer_pos` backwards and changes no byte at or beyond the final
`buffer_pos`; the region keeps its length. -/
theorem fillLoop_untouched (pixels : List Rgb) (size : Nat) :
    ∀ (fuel : Nat) (s : FillState),
      s.buffer_pos ≤ (fillLoop pixels size fuel s).buffer_pos ∧
      (fillLoop pixels size fuel s).buf.length = s.buf.length ∧
      ∀ i, (fillLoop pixels size fuel s).buffer_pos ≤ i →
        (fillLoop pixels size fuel s).buf[i]? = s.buf[i]? := by
  intro fuel
  induction fuel with
  | zero => intro s; simp [fillLoop]
  | succ fuel ih =>
    intro s
    by_cases h : s.buffer_pos < size ∧ s.frame_idx < pixels.length
    · by_cases hc3 : s.component_idx + 1 ≥ 3
      · simp only [fillLoop, dif_pos h, if_pos hc3]
        obtain ⟨h1, h2, h3⟩ := ih
          { buf := s.buf.set s.buffer_pos (pixels[s.frame_idx].getGrb s.component_idx)
            buffer_pos := s.buffer_pos + 1, frame_idx := s.frame_idx + 1, component_idx := 0 }
        simp only [List.length_set] at h1 h2 h3
        refine ⟨by omega, h2, fun i hi => ?_⟩
        rw [h3 i hi, List.getElem?_set_ne (by omega)]
      · simp only [fillLoop, dif_pos h, if_neg hc3]
        obtain ⟨h1, h2, h3⟩ := ih
          { buf := s.buf.set s.buffer_pos (pixels[s.frame_idx].getGrb s.component_idx)
            buffer_pos := s.buffer_pos + 1, frame_idx := s.frame_idx
            component_idx := s.component_idx + 1 }
        simp only [List.length_set] at h1 h2 h3
        refine ⟨by omega, h2, fun i hi => ?_⟩
        rw [h3 i hi, List.getElem?_set_ne (by omega)]
    · simp [fillLoop, dif_neg h]

/-- The fill loop, run with enough fuel from a cursor inside a pixel, writes
`min (size - buffer_pos) (3 * N - cursor)` bytes: the bytes of the wire-order stream from the
cursor on, at the offsets from `buffer_pos` on.  The cursor advances by as many. -/
theorem fillLoop_spec (pixels : List Rgb) (size : Nat) :
    ∀ (fuel : Nat) (s : FillState), s.component_idx ≤ 2 → size ≤ s.buf.length →
      size - s.buffer_pos ≤ fuel →
      (fillLoop pixels size fuel s).buffer_pos = s.buffer_pos +
        min (size - s.buffer_pos) (3 * pixels.length - (3 * s.frame_idx + s.component_idx)) ∧
      3 * (fillLoop pixels size fuel s).frame_idx + (fillLoop pixels size fuel s).component_idx =
        3 * s.frame_idx + s.component_idx +
        min (size - s.buffer_pos) (3 * pixels.length - (3 * s.frame_idx + s.component_idx)) ∧
      (fillLoop pixels size fuel s).component_idx ≤ 2 ∧
      ∀ i, (fillLoop pixels size fuel s).buf[i]? =
        if s.buffer_pos ≤ i ∧ i < s.buffer_pos +
            min (size - s.buffer_pos) (3 * pixels.length - (3 * s.frame_idx + s.component_idx))
        then (wireBytes pixels)[3 * s.frame_idx + s.component_idx + (i - s.buffer_pos)]?
        else s.buf[i]? := by
  intro fuel
  induction fuel with
  | zero =>
    intro s hc hlen hfuel
    have h0 : size - s.buffer_pos = 0 := by omega
    simp only [fillLoop, h0, Nat.zero_min, Nat.add_zero, true_and]
    refine ⟨hc, fun i => ?_⟩
    rw [if_neg (by omega)]
  | succ fuel ih =>
    intro s hc hlen hfuel
    by_cases h : s.buffer_pos < size ∧ s.frame_idx < pixels.length
    · have hv := wireBytes_getElem? pixels s.frame_idx s.component_idx h.2 hc
      by_cases hc3 : s.component_idx + 1 ≥ 3
      · simp only [fillLoop, dif_pos h, if_pos hc3]
        obtain ⟨h1, h2, h3, h4⟩ := ih
          { buf := s.buf.set s.buffer_pos (pixels[s.frame_idx].getGrb s.component_idx)
            buffer_pos := s.buffer_pos + 1, frame_idx := s.frame_idx + 1, component_idx := 0 }
          (by simp) (by simpa using hlen) (by simp only []; omega)
        simp only [] at h1 h2 h3 h4
        have hn : min (size - s.buffer_pos)
            (3 * pixels.length - (3 * s.frame_idx + s.component_idx)) =
            min (size - (s.buffer_pos + 1)) (3 * pixels.length - (3 * (s.frame_idx + 1) + 0)) + 1 := by
          omega
        refine ⟨by omega, by omega, h3, fun i => ?_⟩
        rw [h4 i, hn]
        by_cases hi : i = s.buffer_pos
        · subst hi
          rw [if_neg (by omega), if_pos (by omega), List.getElem?_set_self (by omega),
            Nat.sub_self, Nat.add_zero, hv]
        · rw [List.getElem?_set_ne (fun hh => hi hh.symm)]
          by_cases hr : s.buffer_pos + 1 ≤ i ∧ i < s.buffer_pos + 1 +
              min (size - (s.buffer_pos + 1)) (3 * pixels.length - (3 * (s.frame_idx + 1) + 0))
          · rw [if_pos hr, if_pos (by omega)]
            congr 1
            omega
          · rw [if_neg hr, if_neg (by omega)]
      · simp only [fillLoop, dif_pos h, if_neg hc3]
        obtain ⟨h1, h2, h3, h4⟩ := ih
          { buf := s.buf.set s.buffer_pos (pixels[s.frame_idx].getGrb s.component_idx)
            buffer_pos := s.buffer_pos + 1, frame_idx := s.frame_idx
            component_idx := s.component_idx + 1 }
          (by simp only []; omega) (by simpa using hlen) (by simp only []; omega)
        simp only [] at h1 h2 h3 h4
        have hn : min (size - s.buffer_pos)
            (3 * pixels.length - (3 * s.frame_idx + s.component_idx)) =
            min (size - (s.buffer_pos + 1))
              (3 * pixels.length - (3 * s.frame_idx + (s.component_idx + 1))) + 1 := by
          omega
        refine ⟨by omega, by omega, h3, fun i => ?_⟩
        rw [h4 i, hn]
        by_cases hi : i = s.buffer_pos
        · subst hi
          rw [if_neg (by omega), if_pos (by omega), List.getElem?_set_self (by omega),
            Nat.sub_self, Nat.add_zero, hv]
        · rw [List.getElem?_set_ne (fun hh => hi hh.symm)]
          by_cases hr : s.buffer_pos + 1 ≤ i ∧ i < s.buffer_pos + 1 +
              min (size - (s.buffer_pos + 1))
                (3 * pixels.length - (3 * s.frame_idx + (s.component_idx + 1)))
          · rw [if_pos hr, if_pos (by omega)]
            congr 1
            omega
          · rw [if_neg hr, if_neg (by omega)]
    · have hn : min (size - s.buffer_pos)
          (3 * pixels.length - (3 * s.frame_idx + s.component_idx)) = 0 := by omega
      simp only [fillLoop, dif_neg h, hn, Nat.add_zero, true_and]
      refine ⟨hc, fun i => ?_⟩
      rw [if_neg (by omega)]

/-- Enough fuel: after `size - buffer_pos` iterations the loop guard is false, so the loop of
the source has exited in the state the model returns. -/
theorem fillLoop_exits (pixels : List Rgb) (size : Nat) :
    ∀ (fuel : Nat) (s : FillState), size - s.buffer_pos ≤ fuel →
      ¬ ((fillLoop pixels size fuel s).buffer_pos < size ∧
         (fillLoop pixels size fuel s).frame_idx < pixels.length) := by
  intro fuel
  induction fuel with
  | zero =>
    intro s hfuel
    simp only [fillLoop]
    omega
  | succ fuel ih =>
    intro s hfuel
    by_cases h : s.buffer_pos < size ∧ s.frame_idx < pixels.length
    · by_cases hc3 : s.component_idx + 1 ≥ 3
      · simp only [fillLoop, dif_pos h, if_pos hc3]
        exact ih _ (by simp only []; omega)
      · simp only [fillLoop, dif_pos h, if_neg hc3]
        exact ih _ (by simp only []; omega)
    · simpa only [fillLoop, dif_neg h] using h

/-! ## One fill -/

theorem fillChunk_scratch (m : Machine) (pixels : List Rgb) :
    scratch (fillChunk m pixels) = (fillResult m pixels).buf := by
  cases h : m.self.buffer <;> simp [fillChunk, fillResult, scratch, capacity, h]

theorem fillChunk_cursor (m : Machine) (pixels : List Rgb) :
    (fillChunk m pixels).self.frame_idx = (fillResult m pixels).frame_idx ∧
    (fillChunk m pixels).self.component_idx = (fillResult m pixels).component_idx ∧
    (fillChunk m pixels).self.buffer_len = (fillResult m pixels).buffer_pos := by
  cases h : m.self.buffer <;> simp [fillChunk, fillResult, scratch, capacity, h]

/-- What a fill leaves alone: the encoder state word, the reset code, the recorded size, whether
there is a dynamic buffer, and the static array of line 109. -/
theorem fillChunk_frame (m : Machine) (pixels : List Rgb) :
    (fillChunk m pixels).self.last_state = m.self.last_state ∧
    (fillChunk m pixels).self.reset_code = m.self.reset_code ∧
    (fillChunk m pixels).self.buffer_size = m.self.buffer_size ∧
    (fillChunk m pixels).self.buffer_nc = m.self.buffer_nc ∧
    (fillChunk m pixels).self.buffer.isSome = m.self.buffer.isSome ∧
    (fillChunk m pixels).fallback_buffer_encode = m.fallback_buffer_encode := by
  cases h : m.self.buffer <;> simp [fillChunk, h]

theorem fillChunk_capacity (m : Machine) (pixels : List Rgb) (hwf : WellFormed m) :
    capacity (fillChunk m pixels) = capacity m ∧ WellFormed (fillChunk m pixels) := by
  have hlen := (fillLoop_untouched pixels (capacity m) (capacity m)
    { buf := memset0 (scratch m) (capacity m), buffer_pos := 0, frame_idx := m.self.frame_idx,
      component_idx := m.self.component_idx }).2.1
  simp only [memset0_length] at hlen
  have hs := fillChunk_scratch m pixels
  unfold fillResult at hs
  unfold WellFormed at hwf ⊢
  have hcap : capacity (fillChunk m pixels) = capacity m := by
    cases h : m.self.buffer with
    | none =>
      have h1 : scratch m = m.fallback_buffer_fill := by simp [scratch, h]
      have h2 : capacity m = m.fallback_buffer_fill.length := by simp [capacity, h]
      rw [h1, h2] at hlen
      simp only [fillChunk, fillResult, capacity, h, scratch]
      exact hlen
    | some b => simp [fillChunk, fillResult, capacity, h]
  refine ⟨hcap, ?_⟩
  rw [hs, hlen, hcap, hwf]

/-- One fill from a cursor inside a pixel: the region holds the next
`min (capacity) (3 * N - cursor)` bytes of the wire-order stream followed by zeros, `buffer_len`
is that number, and the cursor has advanced by it. -/
theorem fillChunk_spec (m : Machine) (pixels : List Rgb) (hwf : WellFormed m)
    (hc : m.self.component_idx ≤ 2) :
    (fillChunk m pixels).self.buffer_len = min (capacity m) (3 * pixels.length - cursor m) ∧
    cursor (fillChunk m pixels) = cursor m + min (capacity m) (3 * pixels.length - cursor m) ∧
    (fillChunk m pixels).self.component_idx ≤ 2 ∧
    scratch (fillChunk m pixels) =
      ((wireBytes pixels).drop (cursor m)).take (min (capacity m) (3 * pixels.length - cursor m))
        ++ List.replicate (capacity m - min (capacity m) (3 * pixels.length - cursor m)) 0 := by
  have hwf2 : (scratch m).length = capacity m := hwf
  obtain ⟨h1, h2, h3, h4⟩ := fillLoop_spec pixels (capacity m) (capacity m)
    { buf := memset0 (scratch m) (capacity m), buffer_pos := 0, frame_idx := m.self.frame_idx,
      component_idx := m.self.component_idx } hc
    (by simp only [memset0_length]; omega) (by simp)
  obtain ⟨c1, c2, c3⟩ := fillChunk_cursor m pixels
  have hs := fillChunk_scratch m pixels
  unfold fillResult at c1 c2 c3 hs
  simp only [Nat.sub_zero, Nat.zero_add, Nat.zero_le, true_and] at h1 h2 h3 h4
  unfold cursor
  rw [c1, c2, c3, hs]
  refine ⟨h1, h2, h3, ?_⟩
  apply List.ext_getElem?
  intro i
  rw [h4 i, memset0_getElem?, hwf2]
  have hwl := wireBytes_length pixels
  have htl : (((wireBytes pixels).drop (3 * m.self.frame_idx + m.self.component_idx)).take
      (min (capacity m) (3 * pixels.length - (3 * m.self.frame_idx + m.self.component_idx)))).length
      = min (capacity m) (3 * pixels.length - (3 * m.self.frame_idx + m.self.component_idx)) := by
    rw [List.length_take, List.length_drop, hwl]
    omega
  by_cases hi : i < min (capacity m) (3 * pixels.length - (3 * m.self.frame_idx + m.self.component_idx))
  · rw [if_pos hi, List.getElem?_append_left (by omega), List.getElem?_take_of_lt hi,
      List.getElem?_drop]
  · rw [if_neg hi, List.getElem?_append_right (by omega), htl, List.getElem?_replicate]
    by_cases hi2 : i < capacity m
    · rw [if_pos ⟨hi2, hi2⟩, if_pos (by omega)]
    · rw [if_neg (by omega), if_neg (by omega)]
      exact List.getElem?_eq_none (by omega)

/-! ## One invocation of `encEncode` -/

theorem withLastState_facts (m : Machine) (st : Nat) :
    scratch (withLastState m st) = scratch m ∧ capacity (withLastState m st) = capacity m ∧
    cursor (withLastState m st) = cursor m ∧
    (withLastState m st).self.component_idx = m.self.component_idx ∧
    (withLastState m st).self.frame_idx = m.self.frame_idx ∧
    (withLastState m st).self.buffer_len = m.self.buffer_len ∧
    (withLastState m st).self.last_state = st := by
  simp [withLastState, scratch, capacity, cursor]

theorem encEncode_reset (m : Machine) (pixels : List Rgb) (a : SubAnswer)
    (h : hasFlag m.self.last_state RMT_ENCODING_COMPLETE = true ∧
      m.self.frame_idx = pixels.length) :
    encEncode m pixels a =
      { machine := m, branch := Branch.resetSymbol,
        handed := Delegated.toCopy m.self.reset_code sizeof_rmt_symbol_word_t,
        symbols := a.symbols, ret_state := a.state } := by
  simp only [encEncode, if_pos h]

theorem encEncode_fill (m : Machine) (pixels : List Rgb) (a : SubAnswer)
    (h1 : hasFlag m.self.last_state RMT_ENCODING_COMPLETE = true)
    (h2 : m.self.frame_idx ≠ pixels.length) :
    encEncode m pixels a =
      { machine := withLastState (fillChunk m pixels) a.state, branch := Branch.filledChunk,
        handed := Delegated.toBytes (encodeBuffer (fillChunk m pixels))
          (fillChunk m pixels).self.buffer_len,
        symbols := a.symbols,
        ret_state :=
          if hasFlag a.state RMT_ENCODING_MEM_FULL then RMT_ENCODING_MEM_FULL else 0 } := by
  have h : ¬ (hasFlag m.self.last_state RMT_ENCODING_COMPLETE = true ∧
      m.self.frame_idx = pixels.length) := fun hh => h2 hh.2
  simp only [encEncode, h1, true_and, if_neg h2, if_true]

theorem encEncode_continue (m : Machine) (pixels : List Rgb) (a : SubAnswer)
    (h1 : hasFlag m.self.last_state RMT_ENCODING_COMPLETE = false) :
    encEncode m pixels a =
      { machine := withLastState m a.state, branch := Branch.continuedChunk,
        handed := Delegated.toBytes (encodeBuffer m) m.self.buffer_len,
        symbols := a.symbols,
        ret_state :=
          if hasFlag a.state RMT_ENCODING_MEM_FULL then RMT_ENCODING_MEM_FULL else 0 } := by
  have h : ¬ (hasFlag m.self.last_state RMT_ENCODING_COMPLETE = true ∧
      m.self.frame_idx = pixels.length) := fun hh => by simp [h1] at hh
  simp [encEncode, h1]

/-- The chunk of a fill from a cursor inside a pixel is the next stretch of the wire-order
stream. -/
theorem fillChunk_chunk (m : Machine) (pixels : List Rgb) (hwf : WellFormed m)
    (hc : m.self.component_idx ≤ 2) :
    chunkOf (fillChunk m pixels) =
      ((wireBytes pixels).drop (cursor m)).take
        (min (capacity m) (3 * pixels.length - cursor m)) := by
  obtain ⟨h1, _, _, h4⟩ := fillChunk_spec m pixels hwf hc
  unfold chunkOf
  rw [h1, h4]
  have hlen : (((wireBytes pixels).drop (cursor m)).take
      (min (capacity m) (3 * pixels.length - cursor m))).length =
      min (capacity m) (3 * pixels.length - cursor m) := by
    rw [List.length_take, List.length_drop, wireBytes_length]
    omega
  rw [List.take_append_of_le_length (by omega), List.take_of_length_le (by omega)]

/-- One invocation from a state of a transmission: the invariant and the capacity are kept; a
fill happens only while bytes remain, takes the next `min C (3 * N - cursor)` bytes of the
wire-order stream as its chunk and advances the cursor by as many; any other invocation leaves
the cursor where it is. -/
theorem encEncode_step (pixels : List Rgb) (m : Machine) (a : SubAnswer) (hinv : Inv pixels m) :
    Inv pixels (encEncode m pixels a).machine ∧
    capacity (encEncode m pixels a).machine = capacity m ∧
    ((encEncode m pixels a).branch = Branch.filledChunk →
      cursor m < 3 * pixels.length ∧
      (encEncode m pixels a).machine.self.buffer_len =
        min (capacity m) (3 * pixels.length - cursor m) ∧
      cursor (encEncode m pixels a).machine =
        cursor m + min (capacity m) (3 * pixels.length - cursor m) ∧
      chunkOf (encEncode m pixels a).machine =
        ((wireBytes pixels).drop (cursor m)).take
          (min (capacity m) (3 * pixels.length - cursor m))) ∧
    ((encEncode m pixels a).branch ≠ Branch.filledChunk →
      cursor (encEncode m pixels a).machine = cursor m) := by
  obtain ⟨hwf, hc, hcur⟩ := hinv
  by_cases h1 : hasFlag m.self.last_state RMT_ENCODING_COMPLETE = true
  · by_cases h2 : m.self.frame_idx = pixels.length
    · rw [encEncode_reset m pixels a ⟨h1, h2⟩]
      exact ⟨⟨hwf, hc, hcur⟩, rfl, fun h => by simp at h, fun _ => rfl⟩
    · rw [encEncode_fill m pixels a h1 h2]
      obtain ⟨s1, s2, s3, s4⟩ := fillChunk_spec m pixels hwf hc
      obtain ⟨k1, k2⟩ := fillChunk_capacity m pixels hwf
      obtain ⟨w1, w2, w3, w4, w5, w6, w7⟩ := withLastState_facts (fillChunk m pixels) a.state
      have hlt : cursor m < 3 * pixels.length := by
        unfold cursor at hcur ⊢
        omega
      simp only []
      refine ⟨⟨?_, ?_, ?_⟩, ?_, fun _ => ⟨hlt, ?_, ?_, ?_⟩, fun h => absurd rfl h⟩
      · unfold WellFormed at k2 ⊢
        rw [w1, w2]
        exact k2
      · rw [w4]
        exact s3
      · rw [w3, s2]
        omega
      · rw [w2, k1]
      · rw [w6, s1]
      · rw [w3, s2]
      · have hch := fillChunk_chunk m pixels hwf hc
        unfold chunkOf at hch ⊢
        rw [w1, w6]
        exact hch
  · have h1f : hasFlag m.self.last_state RMT_ENCODING_COMPLETE = false := by
      simpa using h1
    rw [encEncode_continue m pixels a h1f]
    obtain ⟨w1, w2, w3, w4, w5, w6, w7⟩ := withLastState_facts m a.state
    simp only []
    refine ⟨⟨?_, ?_, ?_⟩, w2, fun h => by simp at h, fun _ => w3⟩
    · unfold WellFormed at hwf ⊢
      rw [w1, w2]
      exact hwf
    · rw [w4]
      exact hc
    · rw [w3]
      exact hcur

/-! ## Whole transmissions -/

theorem resetSession_facts (m : Machine) :
    scratch (resetSession m) = scratch m ∧ capacity (resetSession m) = capacity m ∧
    cursor (resetSession m) = 0 ∧ (resetSession m).self.frame_idx = 0 ∧
    (resetSession m).self.component_idx = 0 ∧
    (resetSession m).self.last_state = RMT_ENCODING_COMPLETE ∧
    (resetSession m).self.buffer_len = m.self.buffer_len := by
  simp [resetSession, encReset, scratch, capacity, cursor]

theorem resetSession_inv (pixels : List Rgb) (m : Machine) (hwf : WellFormed m) :
    Inv pixels (resetSession m) := by
  obtain ⟨r1, r2, r3, _, r5, _, _⟩ := resetSession_facts m
  refine ⟨?_, ?_, ?_⟩
  · unfold WellFormed at hwf ⊢
    rw [r1, r2]
    exact hwf
  · rw [r5]
    omega
  · rw [r3]
    omega

/-- With the cursor inside a pixel and not beyond the end, all pixels are consumed exactly when
the linear cursor is `3 * N`. -/
theorem frame_idx_eq_iff (pixels : List Rgb) (m : Machine) (hinv : Inv pixels m) :
    m.self.frame_idx = pixels.length ↔ cursor m = 3 * pixels.length := by
  obtain ⟨_, hc, hcur⟩ := hinv
  unfold cursor at hcur ⊢
  omega

/-- The chunks of any replay continue the wire-order stream from the cursor of the state it
starts in up to the cursor of the state it ends in. -/
theorem run_stream (pixels : List Rgb) :
    ∀ (answers : List SubAnswer) (m : Machine), Inv pixels m →
      Inv pixels (runFinal pixels m answers) ∧
      capacity (runFinal pixels m answers) = capacity m ∧
      (wireBytes pixels).take (cursor m) ++ (chunks (run pixels m answers)).flatten =
        (wireBytes pixels).take (cursor (runFinal pixels m answers)) := by
  intro answers
  induction answers with
  | nil =>
    intro m hinv
    simp [runFinal, run, chunks, hinv]
  | cons a rest ih =>
    intro m hinv
    obtain ⟨s1, s2, s3, s4⟩ := encEncode_step pixels m a hinv
    obtain ⟨i1, i2, i3⟩ := ih (encEncode m pixels a).machine s1
    simp only [runFinal, run, chunks]
    refine ⟨i1, by rw [i2, s2], ?_⟩
    rw [← i3]
    by_cases hb : (encEncode m pixels a).branch = Branch.filledChunk
    · obtain ⟨_, _, f3, f4⟩ := s3 hb
      rw [if_pos hb, List.flatten_cons, f3, f4, List.take_add, List.append_assoc]
    · rw [if_neg hb, s4 hb]

/-- The fills of any replay that starts after `k` full chunks: each records the scheduled
length, and the number of fills never exceeds the schedule. -/
theorem run_fills (pixels : List Rgb) (C : Nat) :
    ∀ (answers : List SubAnswer) (m : Machine) (k : Nat), Inv pixels m → capacity m = C →
      cursor m = min (k * C) (3 * pixels.length) → k * C < 3 * pixels.length + C →
      ∃ len, fillLengths (run pixels m answers) =
          (List.range len).map (fun j => min C (3 * pixels.length - (k + j) * C)) ∧
        cursor (runFinal pixels m answers) = min ((k + len) * C) (3 * pixels.length) ∧
        (k + len) * C < 3 * pixels.length + C := by
  intro answers
  induction answers with
  | nil =>
    intro m k _ _ hcur hk
    exact ⟨0, by simp [run, fillLengths], by simpa [runFinal] using hcur, by simpa using hk⟩
  | cons a rest ih =>
    intro m k hinv hcap hcur hk
    obtain ⟨s1, s2, s3, s4⟩ := encEncode_step pixels m a hinv
    by_cases hb : (encEncode m pixels a).branch = Branch.filledChunk
    · obtain ⟨f1, f2, f3, _⟩ := s3 hb
      rw [hcap] at f2 f3
      have hkc : cursor m = k * C := by omega
      have hsucc : (k + 1) * C = k * C + C := by rw [Nat.add_mul, Nat.one_mul]
      obtain ⟨len, l1, l2, l3⟩ := ih (encEncode m pixels a).machine (k + 1) s1
        (by rw [s2, hcap]) (by rw [f3, hsucc]; omega) (by rw [hsucc]; omega)
      refine ⟨len + 1, ?_, ?_, ?_⟩
      · simp only [run, fillLengths, if_pos hb]
        rw [l1, f2, hkc, List.range_succ_eq_map, List.map_cons, List.map_map]
        simp only [Nat.add_zero, Function.comp_def, Nat.succ_eq_add_one]
        have hfun : (fun j => min C (3 * pixels.length - (k + 1 + j) * C)) =
            (fun j => min C (3 * pixels.length - (k + (j + 1)) * C)) := by
          funext j
          rw [show k + 1 + j = k + (j + 1) by omega]
        rw [hfun]
      · simp only [runFinal]
        rw [l2, show k + 1 + len = k + (len + 1) by omega]
      · rw [show k + (len + 1) = k + 1 + len by omega]
        exact l3
    · obtain ⟨len, l1, l2, l3⟩ := ih (encEncode m pixels a).machine k s1
        (by rw [s2, hcap]) (by rw [s4 hb]; exact hcur) hk
      refine ⟨len, ?_, ?_, l3⟩
      · simp only [run, fillLengths, if_neg hb]
        exact l1
      · simp only [runFinal]
        exact l2

/-- A bytes encoder that completes every chunk in one call: after `n` invocations the cursor has
advanced by `n` full chunks, or has reached the end. -/
theorem run_all_complete (pixels : List Rgb) (C sym : Nat) (hC : 0 < C) :
    ∀ (n : Nat) (m : Machine), Inv pixels m → capacity m = C →
      hasFlag m.self.last_state RMT_ENCODING_COMPLETE = true →
      cursor (runFinal pixels m (List.replicate n ⟨sym, RMT_ENCODING_COMPLETE⟩)) =
        min (cursor m + n * C) (3 * pixels.length) ∧
      hasFlag (runFinal pixels m (List.replicate n ⟨sym, RMT_ENCODING_COMPLETE⟩)).self.last_state
        RMT_ENCODING_COMPLETE = true := by
  intro n
  induction n with
  | zero =>
    intro m hinv _ hflag
    have := hinv.2.2
    simp only [List.replicate, runFinal, Nat.zero_mul, Nat.add_zero]
    exact ⟨by omega, hflag⟩
  | succ n ih =>
    intro m hinv hcap hflag
    obtain ⟨s1, s2, s3, s4⟩ := encEncode_step pixels m ⟨sym, RMT_ENCODING_COMPLETE⟩ hinv
    have hsucc : (n + 1) * C = n * C + C := by rw [Nat.add_mul, Nat.one_mul]
    simp only [List.replicate, runFinal]
    by_cases h2 : m.self.frame_idx = pixels.length
    · have hr := encEncode_reset m pixels ⟨sym, RMT_ENCODING_COMPLETE⟩ ⟨hflag, h2⟩
      have hm : (encEncode m pixels ⟨sym, RMT_ENCODING_COMPLETE⟩).machine = m := by rw [hr]
      obtain ⟨i1, i2⟩ := ih m hinv hcap hflag
      rw [hm]
      have hcur := (frame_idx_eq_iff pixels m hinv).1 h2
      exact ⟨by rw [i1, hsucc]; omega, i2⟩
    · have hf := encEncode_fill m pixels ⟨sym, RMT_ENCODING_COMPLETE⟩ hflag h2
      have hb : (encEncode m pixels ⟨sym, RMT_ENCODING_COMPLETE⟩).branch = Branch.filledChunk := by
        rw [hf]
      have hls : hasFlag (encEncode m pixels ⟨sym, RMT_ENCODING_COMPLETE⟩).machine.self.last_state
          RMT_ENCODING_COMPLETE = true := by
        rw [hf]
        simp only [(withLastState_facts _ _).2.2.2.2.2.2]
        decide
      obtain ⟨f1, _, f3, _⟩ := s3 hb
      obtain ⟨i1, i2⟩ := ih _ s1 (by rw [s2, hcap]) hls
      rw [hcap] at f3
      exact ⟨by rw [i1, f3, hsucc]; omega, i2⟩

/-! ## Channel setup -/

theorem initBuffer_facts (pf : Platform) (e : RmtEncoderWrapper) :
    (initBuffer pf e).1.buffer_size = pf.SOC_RMT_MEM_WORDS_PER_CHANNEL / 8 ∧
    ((initBuffer pf e).1.buffer = none ∨
      (initBuffer pf e).1.buffer = some (List.replicate (pf.SOC_RMT_MEM_WORDS_PER_CHANNEL / 8) 0)) ∧
    (initBuffer pf e).1.reset_code = e.reset_code := by
  unfold initBuffer
  by_cases h1 : pf.calloc_ok = true
  · by_cases h2 : rmt_cache_sync_buffer pf
        (some (List.replicate (pf.SOC_RMT_MEM_WORDS_PER_CHANNEL / 8) 0)) ≠ ESP_OK
    · simp only [h1, if_true, if_pos h2]
      simp
    · simp only [h1, if_true, if_neg h2]
      simp
  · simp only [h1]
    simp

theorem releaseBuffer_facts (e : RmtEncoderWrapper) :
    (releaseBuffer e).1.buffer = none ∧ (releaseBuffer e).1.buffer_size = e.buffer_size ∧
    (releaseBuffer e).1.reset_code = e.reset_code := by
  unfold releaseBuffer
  cases h : e.buffer <;> simp [h]

/-- A session at the start of its life is well-formed and its scratch capacity is
`SOC_RMT_MEM_WORDS_PER_CHANNEL / 8`, with or without the dynamic buffer. -/
theorem newSession_facts (pf : Platform) (timing : LedType) (count : Nat) :
    WellFormed (newSession pf timing count) ∧
    capacity (newSession pf timing count) = pf.SOC_RMT_MEM_WORDS_PER_CHANNEL / 8 := by
  obtain ⟨a1, a2, _⟩ := initBuffer_facts pf (RmtDriver.ctor timing count)._encoder
  have key : ∀ e : RmtEncoderWrapper,
      e.buffer_size = pf.SOC_RMT_MEM_WORDS_PER_CHANNEL / 8 →
      (e.buffer = none ∨
        e.buffer = some (List.replicate (pf.SOC_RMT_MEM_WORDS_PER_CHANNEL / 8) 0)) →
      WellFormed
        { self := e
          fallback_buffer_fill := List.replicate (pf.SOC_RMT_MEM_WORDS_PER_CHANNEL / 8) 0
          fallback_buffer_encode := List.replicate (pf.SOC_RMT_MEM_WORDS_PER_CHANNEL / 8) 0 } ∧
      capacity
        { self := e
          fallback_buffer_fill := List.replicate (pf.SOC_RMT_MEM_WORDS_PER_CHANNEL / 8) 0
          fallback_buffer_encode := List.replicate (pf.SOC_RMT_MEM_WORDS_PER_CHANNEL / 8) 0 } =
        pf.SOC_RMT_MEM_WORDS_PER_CHANNEL / 8 := by
    intro e h1 h2
    rcases h2 with h2 | h2 <;> simp [WellFormed, scratch, capacity, h1, h2]
  unfold newSession RmtDriver.init
  obtain ⟨r1, r2, _⟩ := releaseBuffer_facts
    { (initBuffer pf (RmtDriver.ctor timing count)._encoder).1 with
      reset_code :=
        { (initBuffer pf (RmtDriver.ctor timing count)._encoder).1.reset_code with
          duration0 := storeDuration ((RmtDriver.ctor timing count)._timing.TRS / RMT_NS_PER_TICK) } }
  by_cases hb : pf.new_bytes_encoder_result ≠ ESP_OK
  · simp only [if_pos hb]
    exact key _ (by rw [r2]; exact a1) (Or.inl r1)
  · by_cases hcp : pf.new_copy_encoder_result ≠ ESP_OK
    · simp only [if_neg hb, if_pos hcp]
      exact key _ (by rw [r2]; exact a1) (Or.inl r1)
    · simp only [if_neg hb, if_neg hcp]
      exact key _ a1 a2

/-- The code `init` returns is the error of the first sub-encoder creation that fails, else
`ESP_OK`; on failure the buffer pointer is null. -/
theorem init_outcome (pf : Platform) (d : RmtDriver) :
    (RmtDriver.init pf d).err =
      (if pf.new_bytes_encoder_result ≠ ESP_OK then pf.new_bytes_encoder_result
       else if pf.new_copy_encoder_result ≠ ESP_OK then pf.new_copy_encoder_result
       else ESP_OK) ∧
    ((RmtDriver.init pf d).err ≠ ESP_OK → (RmtDriver.init pf d).driver._encoder.buffer = none) := by
  unfold RmtDriver.init
  by_cases hb : pf.new_bytes_encoder_result ≠ ESP_OK
  · simp only [if_pos hb, true_and]
    exact fun _ => (releaseBuffer_facts _).1
  · by_cases hcp : pf.new_copy_encoder_result ≠ ESP_OK
    · simp only [if_neg hb, if_pos hcp, true_and]
      exact fun _ => (releaseBuffer_facts _).1
    · simp only [if_neg hb, if_neg hcp, true_and]
      exact fun h => absurd rfl h

/-- The durations `init` stores, on every path: the configuration of lines 181-197 and the
reset code of line 179. -/
theorem init_durations (pf : Platform) (d : RmtDriver) :
    (RmtDriver.init pf d).bytes_cfg = initBytesConfig d._timing ∧
    (RmtDriver.init pf d).driver._encoder.reset_code.duration0 =
      storeDuration (d._timing.TRS / RMT_NS_PER_TICK) := by
  unfold RmtDriver.init
  by_cases hb : pf.new_bytes_encoder_result ≠ ESP_OK
  · simp only [if_pos hb, true_and]
    rw [(releaseBuffer_facts _).2.2]
  · by_cases hcp : pf.new_copy_encoder_result ≠ ESP_OK
    · simp only [if_neg hb, if_pos hcp, true_and]
      rw [(releaseBuffer_facts _).2.2]
    · simp only [if_neg hb, if_neg hcp, true_and]

/-! ## The claims -/

/-- C1: for every pixel sequence, every scratch capacity `C ≥ 3` and every sequence of answers
of the sub-encoders, a replay of `encEncode` from a freshly reset session that ends with
`frame_idx = N` has filled chunks (the first `buffer_len` bytes of the filled buffer after each
fill) whose concatenation is the wire-order list `g, r, b` of every pixel in turn; the list has
`3 * N` bytes and does not depend on `C`. -/
theorem C1_chunks_concatenate_to_wire_bytes (pixels : List Rgb) (C : Nat) (m : Machine)
    (answers : List SubAnswer) (hC : 3 ≤ C) (hcap : capacity m = C) (hwf : WellFormed m)
    (hdone : (runFinal pixels (resetSession m) answers).self.frame_idx = pixels.length) :
    (chunks (run pixels (resetSession m) answers)).flatten = wireBytes pixels ∧
    (wireBytes pixels).length = 3 * pixels.length := by
  have _ := hC
  have _ := hcap
  obtain ⟨i1, _, i3⟩ := run_stream pixels answers (resetSession m) (resetSession_inv pixels m hwf)
  have hcur := (frame_idx_eq_iff pixels _ i1).1 hdone
  have hlen := wireBytes_length pixels
  rw [(resetSession_facts m).2.2.1, hcur, List.take_zero, List.nil_append,
    List.take_of_length_le (by omega)] at i3
  exact ⟨i3, hlen⟩

/-- C1, on the scenario: six-byte dynamic buffer, five pixels, a bytes encoder that needs two
calls for the first chunk. -/
theorem C1_chunks_concatenate_to_wire_bytes_witness :
    3 ≤ 6 ∧ capacity (newSession scenarioPlatform scenarioTiming 5) = 6 ∧
    WellFormed (newSession scenarioPlatform scenarioTiming 5) ∧
    (runFinal scenarioPixels (resetSession (newSession scenarioPlatform scenarioTiming 5))
      [answerMemFull, answerComplete, answerComplete, answerComplete]).self.frame_idx =
      scenarioPixels.length ∧
    (chunks (run scenarioPixels (resetSession (newSession scenarioPlatform scenarioTiming 5))
      [answerMemFull, answerComplete, answerComplete, answerComplete])).flatten =
      wireBytes scenarioPixels ∧
    (wireBytes scenarioPixels).length = 3 * scenarioPixels.length :=
  ⟨by decide, by decide, by decide, by decide,
    C1_chunks_concatenate_to_wire_bytes scenarioPixels 6
      (newSession scenarioPlatform scenarioTiming 5)
      [answerMemFull, answerComplete, answerComplete, answerComplete]
      (by decide) (by decide) (by decide) (by decide)⟩

/-- C2 (the code at the failing input): without the dynamic buffer, the first `encEncode`
invocation after a reset on the one-pixel sequence `Rgb(255, 128, 64, 255)` fills the static
array of line 56 with `128, 255, 64` but hands the bytes encoder the static array of line 109,
which holds zeros, with `buffer_len = 3`; with the dynamic buffer the same invocation hands over
`128, 255, 64`. -/
theorem C2_fallback_hands_over_unfilled_array :
    (encEncode (resetSession (newSession degradedPlatform scenarioTiming 1))
      [Rgb.ctor 255 128 64 255] answerComplete).handed =
      Delegated.toBytes [0, 0, 0, 0, 0, 0] 3 ∧
    scratch (encEncode (resetSession (newSession degradedPlatform scenarioTiming 1))
      [Rgb.ctor 255 128 64 255] answerComplete).machine = [128, 255, 64, 0, 0, 0] ∧
    (encEncode (resetSession (newSession scenarioPlatform scenarioTiming 1))
      [Rgb.ctor 255 128 64 255] answerComplete).handed =
      Delegated.toBytes [128, 255, 64, 0, 0, 0] 3 := by
  decide

/-- C3: for every pixel count `N`, every capacity `C ≥ 3` and every sequence of sub-encoder
answers, the fills of a replay from a freshly reset session follow the schedule: there are at
most `ceil(3N / C)` of them, the `k`-th records `buffer_len = min C (3N - k * C)`, and a replay
that has consumed all pixels has made exactly `ceil(3N / C)` fills.  Once all pixels are
consumed and the last chunk is complete, the next invocation takes the reset-symbol path and
leaves the state as it is.  A bytes encoder that completes every chunk at once brings the
session there in `ceil(3N / C)` invocations. -/
theorem C3_fill_schedule (pixels : List Rgb) (C : Nat) (m : Machine) (answers : List SubAnswer)
    (hC : 3 ≤ C) (hcap : capacity m = C) (hwf : WellFormed m) :
    (fillLengths (run pixels (resetSession m) answers)).length ≤
      (3 * pixels.length + C - 1) / C ∧
    (∀ k, k < (fillLengths (run pixels (resetSession m) answers)).length →
      (fillLengths (run pixels (resetSession m) answers))[k]? =
        some (min C (3 * pixels.length - k * C))) ∧
    ((runFinal pixels (resetSession m) answers).self.frame_idx = pixels.length →
      (fillLengths (run pixels (resetSession m) answers)).length =
        (3 * pixels.length + C - 1) / C) ∧
    ((runFinal pixels (resetSession m) answers).self.frame_idx = pixels.length →
      hasFlag (runFinal pixels (resetSession m) answers).self.last_state
        RMT_ENCODING_COMPLETE = true →
      ∀ a, (encEncode (runFinal pixels (resetSession m) answers) pixels a).branch =
          Branch.resetSymbol ∧
        (encEncode (runFinal pixels (resetSession m) answers) pixels a).machine =
          runFinal pixels (resetSession m) answers) ∧
    (∀ sym,
      (runFinal pixels (resetSession m) (List.replicate ((3 * pixels.length + C - 1) / C)
        ⟨sym, RMT_ENCODING_COMPLETE⟩)).self.frame_idx = pixels.length ∧
      hasFlag (runFinal pixels (resetSession m) (List.replicate ((3 * pixels.length + C - 1) / C)
        ⟨sym, RMT_ENCODING_COMPLETE⟩)).self.last_state RMT_ENCODING_COMPLETE = true) := by
  have hC0 : 0 < C := by omega
  have hinv := resetSession_inv pixels m hwf
  obtain ⟨r1, r2, r3, _, _, r6, _⟩ := resetSession_facts m
  obtain ⟨len, l1, l2, l3⟩ := run_fills pixels C answers (resetSession m) 0 hinv
    (by rw [r2, hcap]) (by rw [r3]; simp) (by omega)
  obtain ⟨i1, _, _⟩ := run_stream pixels answers (resetSession m) hinv
  simp only [Nat.zero_add] at l1 l2 l3
  have hlenEq : (fillLengths (run pixels (resetSession m) answers)).length = len := by
    rw [l1]
    simp
  have hdm := Nat.div_add_mod (3 * pixels.length + C - 1) C
  have hml := Nat.mod_lt (3 * pixels.length + C - 1) hC0
  have hcomm : C * ((3 * pixels.length + C - 1) / C) = (3 * pixels.length + C - 1) / C * C :=
    Nat.mul_comm _ _
  refine ⟨?_, ?_, ?_, ?_, ?_⟩
  · rw [hlenEq]
    exact (Nat.le_div_iff_mul_le hC0).2 (by omega)
  · intro k hk
    rw [hlenEq] at hk
    rw [l1]
    simp [List.getElem?_map, List.getElem?_range, hk]
  · intro hdone
    have hcur := (frame_idx_eq_iff pixels _ i1).1 hdone
    rw [hlenEq]
    have h1 : (3 * pixels.length + C - 1) / C < len + 1 :=
      (Nat.div_lt_iff_lt_mul hC0).2 (by rw [Nat.add_mul, Nat.one_mul]; omega)
    have h2 : len ≤ (3 * pixels.length + C - 1) / C :=
      (Nat.le_div_iff_mul_le hC0).2 (by omega)
    omega
  · intro hdone hflag a
    rw [encEncode_reset _ pixels a ⟨hflag, hdone⟩]
    exact ⟨rfl, rfl⟩
  · intro sym
    obtain ⟨c1, c2⟩ := run_all_complete pixels C sym hC0 ((3 * pixels.length + C - 1) / C)
      (resetSession m) hinv (by rw [r2, hcap]) (by rw [r6]; decide)
    obtain ⟨j1, _, _⟩ := run_stream pixels
      (List.replicate ((3 * pixels.length + C - 1) / C) ⟨sym, RMT_ENCODING_COMPLETE⟩)
      (resetSession m) hinv
    refine ⟨(frame_idx_eq_iff pixels _ j1).2 ?_, c2⟩
    rw [c1, r3]
    omega

/-- C3, on the scenario of the spec: five pixels and a capacity of six bytes give exactly three
fills, of 6, 6 and 3 bytes, and the next invocation emits the reset symbol. -/
theorem C3_fill_schedule_witness :
    3 ≤ 6 ∧ capacity (newSession scenarioPlatform scenarioTiming 5) = 6 ∧
    WellFormed (newSession scenarioPlatform scenarioTiming 5) ∧
    fillLengths (run scenarioPixels (resetSession (newSession scenarioPlatform scenarioTiming 5))
      [answerComplete, answerComplete, answerComplete, answerComplete]) = [6, 6, 3] ∧
    (run scenarioPixels (resetSession (newSession scenarioPlatform scenarioTiming 5))
      [answerComplete, answerComplete, answerComplete, answerComplete]).map
        (fun o => o.branch) =
      [Branch.filledChunk, Branch.filledChunk, Branch.filledChunk, Branch.resetSymbol] ∧
    (fillLengths (run scenarioPixels
      (resetSession (newSession scenarioPlatform scenarioTiming 5))
      [answerComplete, answerComplete, answerComplete, answerComplete])).length =
      (3 * scenarioPixels.length + 6 - 1) / 6 :=
  ⟨by decide, by decide, by decide, by decide, by decide,
    (C3_fill_schedule scenarioPixels 6 (newSession scenarioPlatform scenarioTiming 5)
      [answerComplete, answerComplete, answerComplete, answerComplete]
      (by decide) (by decide) (by decide)).2.2.1 (by decide)⟩

/-- C4: with no pixels, the first `encEncode` invocation after `encReset` calls the copy encoder
with the reset code, returns that encoder's symbol count and state, and leaves the whole session
state as `encReset` left it: the scratch buffer (dynamic or static), the buffer handed to the
bytes encoder and `buffer_len` are those from before the reset, and the bytes encoder is not
called. -/
theorem C4_empty_sequence_emits_reset (m : Machine) (a : SubAnswer) :
    encEncode (resetSession m) [] a =
      { machine := resetSession m, branch := Branch.resetSymbol,
        handed := Delegated.toCopy m.self.reset_code sizeof_rmt_symbol_word_t,
        symbols := a.symbols, ret_state := a.state } ∧
    (encReset m).1 = ESP_OK ∧
    scratch (encEncode (resetSession m) [] a).machine = scratch m ∧
    encodeBuffer (encEncode (resetSession m) [] a).machine = encodeBuffer m ∧
    (encEncode (resetSession m) [] a).machine.fallback_buffer_fill = m.fallback_buffer_fill ∧
    (encEncode (resetSession m) [] a).machine.self.buffer = m.self.buffer ∧
    (encEncode (resetSession m) [] a).machine.self.buffer_len = m.self.buffer_len := by
  have h : hasFlag (resetSession m).self.last_state RMT_ENCODING_COMPLETE = true ∧
      (resetSession m).self.frame_idx = ([] : List Rgb).length := by
    obtain ⟨_, _, _, r4, _, r6, _⟩ := resetSession_facts m
    rw [r4, r6]
    exact ⟨by decide, rfl⟩
  rw [encEncode_reset (resetSession m) [] a h]
  simp [resetSession, encReset, scratch, encodeBuffer]

/-- C5: from every session state (any cursor, any `last_state`, any buffer contents, any
`buffer_len`) of capacity `C`, `encReset` followed by one `encEncode` invocation on a sequence
of `N ≥ 1` pixels fills the buffer: `buffer_len = min C (3N)`, and the buffer holds the first
`min C (3N)` wire-order bytes of the sequence followed by zeros.  A session at the start of its
life with the same capacity yields the same buffer and the same `buffer_len`. -/
theorem C5_restart_leaves_no_residue (pixels : List Rgb) (C : Nat) (m : Machine) (a : SubAnswer)
    (hN : 1 ≤ pixels.length) (hcap : capacity m = C) (hwf : WellFormed m) :
    (encEncode (resetSession m) pixels a).branch = Branch.filledChunk ∧
    (encEncode (resetSession m) pixels a).machine.self.buffer_len = min C (3 * pixels.length) ∧
    scratch (encEncode (resetSession m) pixels a).machine =
      (wireBytes pixels).take (min C (3 * pixels.length)) ++
        List.replicate (C - min C (3 * pixels.length)) 0 ∧
    (∀ (pf : Platform) (timing : LedType) (count : Nat) (a0 : SubAnswer),
      pf.SOC_RMT_MEM_WORDS_PER_CHANNEL / 8 = C →
      scratch (encEncode (resetSession (newSession pf timing count)) pixels a0).machine =
        scratch (encEncode (resetSession m) pixels a).machine ∧
      (encEncode (resetSession (newSession pf timing count)) pixels a0).machine.self.buffer_len =
        (encEncode (resetSession m) pixels a).machine.self.buffer_len) := by
  have key : ∀ (m1 : Machine) (a1 : SubAnswer), capacity m1 = C → WellFormed m1 →
      (encEncode (resetSession m1) pixels a1).branch = Branch.filledChunk ∧
      (encEncode (resetSession m1) pixels a1).machine.self.buffer_len =
        min C (3 * pixels.length) ∧
      scratch (encEncode (resetSession m1) pixels a1).machine =
        (wireBytes pixels).take (min C (3 * pixels.length)) ++
          List.replicate (C - min C (3 * pixels.length)) 0 := by
    intro m1 a1 hcap1 hwf1
    obtain ⟨hwfr, hcr, _⟩ := resetSession_inv pixels m1 hwf1
    obtain ⟨_, r2, r3, r4, _, r6, _⟩ := resetSession_facts m1
    have h1 : hasFlag (resetSession m1).self.last_state RMT_ENCODING_COMPLETE = true := by
      rw [r6]
      decide
    have h2 : (resetSession m1).self.frame_idx ≠ pixels.length := by
      rw [r4]
      omega
    obtain ⟨s1, _, _, s4⟩ := fillChunk_spec (resetSession m1) pixels hwfr hcr
    obtain ⟨w1, _, _, _, _, w6, _⟩ :=
      withLastState_facts (fillChunk (resetSession m1) pixels) a1.state
    rw [r2, r3, hcap1, Nat.sub_zero] at s1 s4
    rw [List.drop_zero] at s4
    rw [encEncode_fill (resetSession m1) pixels a1 h1 h2]
    simp only []
    exact ⟨trivial, by rw [w6, s1], by rw [w1, s4]⟩
  obtain ⟨k1, k2, k3⟩ := key m a hcap hwf
  refine ⟨k1, k2, k3, ?_⟩
  intro pf timing count a0 hpf
  obtain ⟨n1, n2⟩ := newSession_facts pf timing count
  obtain ⟨_, q2, q3⟩ := key (newSession pf timing count) a0 (by rw [n2, hpf]) n1
  exact ⟨by rw [q3, k3], by rw [q2, k2]⟩

/-- C5, on the scenario: the session is interrupted after its second fill and restarted. -/
theorem C5_restart_leaves_no_residue_witness :
    1 ≤ scenarioPixels.length ∧
    capacity (runFinal scenarioPixels
      (resetSession (newSession scenarioPlatform scenarioTiming 5))
      [answerComplete, answerMemFull]) = 6 ∧
    WellFormed (runFinal scenarioPixels
      (resetSession (newSession scenarioPlatform scenarioTiming 5))
      [answerComplete, answerMemFull]) ∧
    scratch (runFinal scenarioPixels
      (resetSession (newSession scenarioPlatform scenarioTiming 5))
      [answerComplete, answerMemFull]) = [0, 0, 255, 255, 255, 0] ∧
    scratch (encEncode (resetSession (runFinal scenarioPixels
      (resetSession (newSession scenarioPlatform scenarioTiming 5))
      [answerComplete, answerMemFull])) scenarioPixels answerComplete).machine =
      (wireBytes scenarioPixels).take (min 6 (3 * scenarioPixels.length)) ++
        List.replicate (6 - min 6 (3 * scenarioPixels.length)) 0 :=
  ⟨by decide, by decide, by decide, by decide,
    (C5_restart_leaves_no_residue scenarioPixels 6
      (runFinal scenarioPixels (resetSession (newSession scenarioPlatform scenarioTiming 5))
        [answerComplete, answerMemFull]) answerComplete
      (by decide) (by decide) (by decide)).2.2.1⟩

/-- C6: whatever the buffer held before, after an `encEncode` invocation that fills `K` bytes
into a scratch buffer of capacity `C`, with `K < C`, every byte at an offset `i` with
`K ≤ i < C` is 0. -/
theorem C6_tail_of_short_chunk_is_zero (pixels : List Rgb) (C : Nat) (m : Machine)
    (a : SubAnswer) (hcap : capacity m = C) (hwf : WellFormed m)
    (hfill : (encEncode m pixels a).branch = Branch.filledChunk)
    (hK : (encEncode m pixels a).machine.self.buffer_len < C) :
    ∀ i, (encEncode m pixels a).machine.self.buffer_len ≤ i → i < C →
      (scratch (encEncode m pixels a).machine)[i]? = some 0 := by
  have _ := hK
  by_cases h1 : hasFlag m.self.last_state RMT_ENCODING_COMPLETE = true
  · by_cases h2 : m.self.frame_idx = pixels.length
    · rw [encEncode_reset m pixels a ⟨h1, h2⟩] at hfill
      simp at hfill
    · rw [encEncode_fill m pixels a h1 h2]
      simp only []
      obtain ⟨w1, _, _, _, _, w6, _⟩ := withLastState_facts (fillChunk m pixels) a.state
      obtain ⟨_, _, c3⟩ := fillChunk_cursor m pixels
      rw [w1, w6, fillChunk_scratch, c3]
      intro i hi hiC
      have hu := (fillLoop_untouched pixels (capacity m) (capacity m)
        { buf := memset0 (scratch m) (capacity m), buffer_pos := 0,
          frame_idx := m.self.frame_idx, component_idx := m.self.component_idx }).2.2 i hi
      have hwf2 : (scratch m).length = capacity m := hwf
      unfold fillResult
      rw [hu, memset0_getElem?, hwf2, hcap, if_pos ⟨hiC, hiC⟩]
  · have h1f : hasFlag m.self.last_state RMT_ENCODING_COMPLETE = false := by
      simpa using h1
    rw [encEncode_continue m pixels a h1f] at hfill
    simp at hfill

/-- C6, on the scenario: the third fill writes 3 bytes over a buffer whose offsets 3 and 4 held
255 from the second chunk. -/
theorem C6_tail_of_short_chunk_is_zero_witness :
    scratch (runFinal scenarioPixels
      (resetSession (newSession scenarioPlatform scenarioTiming 5))
      [answerComplete, answerComplete]) = [0, 0, 255, 255, 255, 0] ∧
    (encEncode (runFinal scenarioPixels
      (resetSession (newSession scenarioPlatform scenarioTiming 5))
      [answerComplete, answerComplete]) scenarioPixels answerComplete).machine.self.buffer_len
      = 3 ∧
    (scratch (encEncode (runFinal scenarioPixels
      (resetSession (newSession scenarioPlatform scenarioTiming 5))
      [answerComplete, answerComplete]) scenarioPixels answerComplete).machine)[4]? = some 0 :=
  ⟨by decide, by decide,
    C6_tail_of_short_chunk_is_zero scenarioPixels 6
      (runFinal scenarioPixels (resetSession (newSession scenarioPlatform scenarioTiming 5))
        [answerComplete, answerComplete]) answerComplete
      (by decide) (by decide) (by decide) (by decide) 4 (by decide) (by decide)⟩

/-- C7: the resolution is 20,000,000 Hz and the nanoseconds-per-tick constant is 50; each of
the five durations that `init` converts is the truncating quotient `ns / 50`, stored in a 15-bit
field (so the field holds `(ns / 50) mod 2^15`, which is `ns / 50` itself whenever the quotient
fits the field); for the profile of the scenario `T0H = 350` ns is stored as 7 ticks and
`TRS = 280000` ns as 5600 ticks. -/
theorem C7_tick_conversion :
    RMT_RESOLUTION_HZ = 20000000 ∧ RMT_NS_PER_TICK = 50 ∧
    (∀ (pf : Platform) (timing : LedType) (count : Nat),
      (RmtDriver.init pf (RmtDriver.ctor timing count)).bytes_cfg.bit0.duration0 =
        timing.T0H / 50 % 2 ^ 15 ∧
      (RmtDriver.init pf (RmtDriver.ctor timing count)).bytes_cfg.bit0.duration1 =
        timing.T0L / 50 % 2 ^ 15 ∧
      (RmtDriver.init pf (RmtDriver.ctor timing count)).bytes_cfg.bit1.duration0 =
        timing.T1H / 50 % 2 ^ 15 ∧
      (RmtDriver.init pf (RmtDriver.ctor timing count)).bytes_cfg.bit1.duration1 =
        timing.T1L / 50 % 2 ^ 15 ∧
      (RmtDriver.init pf (RmtDriver.ctor timing count)).driver._encoder.reset_code.duration0 =
        timing.TRS / 50 % 2 ^ 15) ∧
    (∀ (pf : Platform) (timing : LedType) (count : Nat),
      (timing.T0H / 50 < 2 ^ 15 →
        (RmtDriver.init pf (RmtDriver.ctor timing count)).bytes_cfg.bit0.duration0 =
          timing.T0H / 50) ∧
      (timing.T0L / 50 < 2 ^ 15 →
        (RmtDriver.init pf (RmtDriver.ctor timing count)).bytes_cfg.bit0.duration1 =
          timing.T0L / 50) ∧
      (timing.T1H / 50 < 2 ^ 15 →
        (RmtDriver.init pf (RmtDriver.ctor timing count)).bytes_cfg.bit1.duration0 =
          timing.T1H / 50) ∧
      (timing.T1L / 50 < 2 ^ 15 →
        (RmtDriver.init pf (RmtDriver.ctor timing count)).bytes_cfg.bit1.duration1 =
          timing.T1L / 50) ∧
      (timing.TRS / 50 < 2 ^ 15 →
        (RmtDriver.init pf (RmtDriver.ctor timing count)).driver._encoder.reset_code.duration0 =
          timing.TRS / 50)) ∧
    (∀ (pf : Platform) (count : Nat),
      (RmtDriver.init pf (RmtDriver.ctor scenarioTiming count)).bytes_cfg.bit0.duration0 = 7 ∧
      (RmtDriver.init pf (RmtDriver.ctor scenarioTiming count)).driver._encoder.reset_code.duration0
        = 5600) := by
  have h50 : RMT_NS_PER_TICK = 50 := by decide
  have hst : ∀ v : Nat, storeDuration (toUint16 v) = v % 2 ^ 15 ∧ storeDuration v = v % 2 ^ 15 := by
    intro v
    unfold storeDuration toUint16
    exact ⟨Nat.mod_mod_of_dvd v (by decide), rfl⟩
  have hall : ∀ (pf : Platform) (timing : LedType) (count : Nat),
      (RmtDriver.init pf (RmtDriver.ctor timing count)).bytes_cfg.bit0.duration0 =
        timing.T0H / 50 % 2 ^ 15 ∧
      (RmtDriver.init pf (RmtDriver.ctor timing count)).bytes_cfg.bit0.duration1 =
        timing.T0L / 50 % 2 ^ 15 ∧
      (RmtDriver.init pf (RmtDriver.ctor timing count)).bytes_cfg.bit1.duration0 =
        timing.T1H / 50 % 2 ^ 15 ∧
      (RmtDriver.init pf (RmtDriver.ctor timing count)).bytes_cfg.bit1.duration1 =
        timing.T1L / 50 % 2 ^ 15 ∧
      (RmtDriver.init pf (RmtDriver.ctor timing count)).driver._encoder.reset_code.duration0 =
        timing.TRS / 50 % 2 ^ 15 := by
    intro pf timing count
    obtain ⟨hcfg, hrst⟩ := init_durations pf (RmtDriver.ctor timing count)
    rw [hcfg, hrst]
    simp only [initBytesConfig, RmtDriver.ctor, h50]
    exact ⟨(hst _).1, (hst _).1, (hst _).1, (hst _).1, (hst _).2⟩
  refine ⟨by decide, h50, hall, ?_, ?_⟩
  · intro pf timing count
    obtain ⟨a1, a2, a3, a4, a5⟩ := hall pf timing count
    exact ⟨fun h => by rw [a1, Nat.mod_eq_of_lt h], fun h => by rw [a2, Nat.mod_eq_of_lt h],
      fun h => by rw [a3, Nat.mod_eq_of_lt h], fun h => by rw [a4, Nat.mod_eq_of_lt h],
      fun h => by rw [a5, Nat.mod_eq_of_lt h]⟩
  · intro pf count
    obtain ⟨a1, _, _, _, a5⟩ := hall pf scenarioTiming count
    rw [a1, a5]
    decide

/-- C7, on the scenario: the five durations of the WS2812 profile fit the field and are stored
as 7, 16, 14, 12 and 5600 ticks. -/
theorem C7_tick_conversion_witness :
    scenarioTiming.T0H / 50 < 2 ^ 15 ∧ scenarioTiming.TRS / 50 < 2 ^ 15 ∧
    (RmtDriver.init scenarioPlatform (RmtDriver.ctor scenarioTiming 5)).bytes_cfg.bit0.duration0 =
      scenarioTiming.T0H / 50 ∧
    (RmtDriver.init scenarioPlatform
      (RmtDriver.ctor scenarioTiming 5)).driver._encoder.reset_code.duration0 =
      scenarioTiming.TRS / 50 :=
  ⟨by decide, by decide,
    (C7_tick_conversion.2.2.2.1 scenarioPlatform scenarioTiming 5).1 (by decide),
    (C7_tick_conversion.2.2.2.1 scenarioPlatform scenarioTiming 5).2.2.2.2 (by decide)⟩

/-- C8: for every pixel built as `Rgb(r, g, b, a)`, `getGrb(0) = g`, `getGrb(1) = r` and
`getGrb(2) = b`; `Rgb(255, 128, 64, 255)` yields `128, 255, 64` and
`Rgb(0x12, 0x34, 0x56, 0x78)` yields `0x34, 0x12, 0x56`. -/
theorem C8_getGrb_wire_order :
    (∀ r g b a : Nat, (Rgb.ctor r g b a).getGrb 0 = g ∧ (Rgb.ctor r g b a).getGrb 1 = r ∧
      (Rgb.ctor r g b a).getGrb 2 = b) ∧
    [0, 1, 2].map (Rgb.ctor 255 128 64 255).getGrb = [128, 255, 64] ∧
    [0, 1, 2].map (Rgb.ctor 0x12 0x34 0x56 0x78).getGrb = [0x34, 0x12, 0x56] :=
  ⟨fun _ _ _ _ => ⟨rfl, rfl, rfl⟩, by decide, by decide⟩

/-- C9: `init` returns `ESP_OK` whenever the creation of the bytes encoder and of the copy
encoder both succeed, whatever the allocation and the cache synchronisation answer; it returns
an error exactly when one of the two creations fails, and then that creation's error; in every
failing case `_encoder.buffer` is null afterwards. -/
theorem C9_init_result (pf : Platform) (d : RmtDriver) :
    (pf.new_bytes_encoder_result = ESP_OK → pf.new_copy_encoder_result = ESP_OK →
      (RmtDriver.init pf d).err = ESP_OK) ∧
    ((RmtDriver.init pf d).err ≠ ESP_OK ↔
      (pf.new_bytes_encoder_result ≠ ESP_OK ∨ pf.new_copy_encoder_result ≠ ESP_OK)) ∧
    (pf.new_bytes_encoder_result ≠ ESP_OK →
      (RmtDriver.init pf d).err = pf.new_bytes_encoder_result) ∧
    (pf.new_bytes_encoder_result = ESP_OK → pf.new_copy_encoder_result ≠ ESP_OK →
      (RmtDriver.init pf d).err = pf.new_copy_encoder_result) ∧
    ((RmtDriver.init pf d).err ≠ ESP_OK → (RmtDriver.init pf d).driver._encoder.buffer = none) := by
  obtain ⟨herr, hbuf⟩ := init_outcome pf d
  by_cases hb : pf.new_bytes_encoder_result ≠ ESP_OK
  · rw [if_pos hb] at herr
    refine ⟨fun h => absurd h hb, ⟨fun _ => Or.inl hb, fun _ => by rw [herr]; exact hb⟩,
      fun _ => herr, fun h => absurd h hb, hbuf⟩
  · have hb2 : pf.new_bytes_encoder_result = ESP_OK := not_not.mp hb
    by_cases hcp : pf.new_copy_encoder_result ≠ ESP_OK
    · rw [if_neg hb, if_pos hcp] at herr
      refine ⟨fun _ h => absurd h hcp, ⟨fun _ => Or.inr hcp, fun _ => by rw [herr]; exact hcp⟩,
        fun h => absurd h hb, fun _ _ => herr, hbuf⟩
    · have hcp2 : pf.new_copy_encoder_result = ESP_OK := not_not.mp hcp
      rw [if_neg hb, if_neg hcp] at herr
      refine ⟨fun _ _ => herr, ⟨fun h => absurd herr h, fun h => ?_⟩, fun h => absurd h hb,
        fun _ h => absurd h hcp, fun h => absurd herr h⟩
      rcases h with h | h
      · exact absurd hb2 h
      · exact absurd hcp2 h

/-- C9, on two platforms: the allocation fails and both creations succeed (`ESP_OK`, no dynamic
buffer); the allocation succeeds and the copy encoder cannot be created (its error 259 is
returned and the buffer is released). -/
theorem C9_init_result_witness :
    (RmtDriver.init degradedPlatform (RmtDriver.ctor scenarioTiming 5)).err = ESP_OK ∧
    (RmtDriver.init degradedPlatform (RmtDriver.ctor scenarioTiming 5)).driver._encoder.buffer
      = none ∧
    (RmtDriver.init { scenarioPlatform with new_copy_encoder_result := 259 }
      (RmtDriver.ctor scenarioTiming 5)).err = 259 ∧
    (RmtDriver.init { scenarioPlatform with new_copy_encoder_result := 259 }
      (RmtDriver.ctor scenarioTiming 5)).driver._encoder.buffer = none :=
  ⟨(C9_init_result degradedPlatform (RmtDriver.ctor scenarioTiming 5)).1 (by decide) (by decide),
    by decide,
    (C9_init_result { scenarioPlatform with new_copy_encoder_result := 259 }
      (RmtDriver.ctor scenarioTiming 5)).2.2.2.1 (by decide) (by decide),
    (C9_init_result { scenarioPlatform with new_copy_encoder_result := 259 }
      (RmtDriver.ctor scenarioTiming 5)).2.2.2.2 (by decide)⟩

/-- C10: on every pixel array and every index `i` inside it, the accessor calls `getGrb(0)`,
`getGrb(1)`, `getGrb(2)` on pixel `i` return that pixel's stored `g`, `r`, `b`; every call
leaves the array as it was, so all pixels (pixel `i` and every other) keep their channels, and
the same call on the array it leaves returns the same value again. -/
theorem C10_getGrb_is_pure (pixels : List Rgb) (i : Nat) (p : Rgb) (hi : pixels[i]? = some p) :
    getGrbAt pixels i 0 = some (p.g, pixels) ∧
    getGrbAt pixels i 1 = some (p.r, pixels) ∧
    getGrbAt pixels i 2 = some (p.b, pixels) ∧
    (∀ (idx v : Nat) (after : List Rgb), getGrbAt pixels i idx = some (v, after) →
      getGrbAt after i idx = some (v, after) ∧ ∀ j : Nat, after[j]? = pixels[j]?) := by
  refine ⟨by simp [getGrbAt, hi, Rgb.getGrb], by simp [getGrbAt, hi, Rgb.getGrb],
    by simp [getGrbAt, hi, Rgb.getGrb], ?_⟩
  intro idx v after h
  simp only [getGrbAt, hi, Option.some.injEq, Prod.mk.injEq] at h
  obtain ⟨hv, hafter⟩ := h
  subst hafter
  subst hv
  exact ⟨by simp [getGrbAt, hi], fun _ => rfl⟩

/-- C10, on the five pixels of the test: the calls on pixel 3 (yellow) return 255, 255, 0 and
leave the array as it is. -/
theorem C10_getGrb_is_pure_witness :
    scenarioPixels[3]? = some (Rgb.ctor 255 255 0 255) ∧
    getGrbAt scenarioPixels 3 0 = some (255, scenarioPixels) ∧
    getGrbAt scenarioPixels 3 1 = some (255, scenarioPixels) ∧
    getGrbAt scenarioPixels 3 2 = some (0, scenarioPixels) :=
  ⟨by decide,
    (C10_getGrb_is_pure scenarioPixels 3 (Rgb.ctor 255 255 0 255) (by decide)).1,
    (C10_getGrb_is_pure scenarioPixels 3 (Rgb.ctor 255 255 0 255) (by decide)).2.1,
    (C10_getGrb_is_pure scenarioPixels 3 (Rgb.ctor 255 255 0 255) (by decide)).2.2.1⟩

/-! ## Invariants of a session over its whole life -/

/-- An invocation never records more bytes than the buffer holds. -/
theorem encEncode_buffer_len_le (pixels : List Rgb) (m : Machine) (a : SubAnswer)
    (hinv : Inv pixels m) (hlen : m.self.buffer_len ≤ capacity m) :
    (encEncode m pixels a).machine.self.buffer_len ≤ capacity m := by
  by_cases hb : (encEncode m pixels a).branch = Branch.filledChunk
  · obtain ⟨_, f2, _, _⟩ := (encEncode_step pixels m a hinv).2.2.1 hb
    rw [f2]
    omega
  · by_cases h1 : hasFlag m.self.last_state RMT_ENCODING_COMPLETE = true
    · by_cases h2 : m.self.frame_idx = pixels.length
      · rw [encEncode_reset m pixels a ⟨h1, h2⟩]
        exact hlen
      · rw [encEncode_fill m pixels a h1 h2] at hb
        exact absurd rfl hb
    · have h1f : hasFlag m.self.last_state RMT_ENCODING_COMPLETE = false := by
        simpa using h1
      rw [encEncode_continue m pixels a h1f]
      simp only []
      rw [(withLastState_facts m a.state).2.2.2.2.2.1]
      exact hlen

theorem runFinal_buffer_len_le (pixels : List Rgb) :
    ∀ (answers : List SubAnswer) (m : Machine), Inv pixels m →
      m.self.buffer_len ≤ capacity m →
      (runFinal pixels m answers).self.buffer_len ≤ capacity m := by
  intro answers
  induction answers with
  | nil =>
    intro m _ hlen
    exact hlen
  | cons a rest ih =>
    intro m hinv hlen
    obtain ⟨s1, s2, _, _⟩ := encEncode_step pixels m a hinv
    have h := ih (encEncode m pixels a).machine s1
      (by rw [s2]; exact encEncode_buffer_len_le pixels m a hinv hlen)
    rw [s2] at h
    exact h

/-- One transmission from a well-formed state that records no more bytes than the buffer holds:
the state it ends in has its cursor inside the sequence and inside a pixel, records no more
bytes than the buffer holds, and is well-formed with the same capacity. -/
theorem transmit_invariant (pixels : List Rgb) (m : Machine) (answers : List SubAnswer)
    (hwf : WellFormed m) (hlen : m.self.buffer_len ≤ capacity m) :
    Inv pixels (transmit m pixels answers) ∧
    capacity (transmit m pixels answers) = capacity m ∧
    (transmit m pixels answers).self.buffer_len ≤ capacity m := by
  unfold transmit
  have hinv := resetSession_inv pixels m hwf
  obtain ⟨_, r2, _, _, _, _, r7⟩ := resetSession_facts m
  obtain ⟨i1, i2, _⟩ := run_stream pixels answers (resetSession m) hinv
  have h := runFinal_buffer_len_le pixels answers (resetSession m) hinv (by rw [r7, r2]; exact hlen)
  rw [r2] at h i2
  exact ⟨i1, i2, h⟩

theorem sessionAfter_invariant :
    ∀ (history : List (List Rgb × List SubAnswer)) (m : Machine), WellFormed m →
      m.self.buffer_len ≤ capacity m →
      WellFormed (sessionAfter m history) ∧
      capacity (sessionAfter m history) = capacity m ∧
      (sessionAfter m history).self.buffer_len ≤ capacity m := by
  intro history
  induction history with
  | nil =>
    intro m hwf hlen
    exact ⟨hwf, rfl, hlen⟩
  | cons t rest ih =>
    intro m hwf hlen
    obtain ⟨t1, t2, t3⟩ := transmit_invariant t.1 m t.2 hwf hlen
    obtain ⟨j1, j2, j3⟩ := ih (transmit m t.1 t.2) t1.1 (by rw [t2]; exact t3)
    simp only [sessionAfter]
    rw [t2] at j2 j3
    exact ⟨j1, j2, j3⟩

theorem newSession_buffer_len (pf : Platform) (timing : LedType) (count : Nat) :
    (newSession pf timing count).self.buffer_len = 0 := by
  have hib : ∀ e : RmtEncoderWrapper, (initBuffer pf e).1.buffer_len = e.buffer_len := by
    intro e
    unfold initBuffer
    by_cases h1 : pf.calloc_ok = true
    · by_cases h2 : rmt_cache_sync_buffer pf
          (some (List.replicate (pf.SOC_RMT_MEM_WORDS_PER_CHANNEL / 8) 0)) ≠ ESP_OK
      · simp only [h1, if_true, if_pos h2]
      · simp only [h1, if_true, if_neg h2]
    · simp only [h1]
      simp
  have hrb : ∀ e : RmtEncoderWrapper, (releaseBuffer e).1.buffer_len = e.buffer_len := by
    intro e
    unfold releaseBuffer
    cases h : e.buffer <;> simp [h]
  have h0 : (RmtDriver.ctor timing count)._encoder.buffer_len = 0 := rfl
  unfold newSession RmtDriver.init
  by_cases hb : pf.new_bytes_encoder_result ≠ ESP_OK
  · simp only [if_pos hb]
    rw [hrb]
    simp only []
    rw [hib, h0]
  · by_cases hcp : pf.new_copy_encoder_result ≠ ESP_OK
    · simp only [if_neg hb, if_pos hcp]
      rw [hrb]
      simp only []
      rw [hib, h0]
    · simp only [if_neg hb, if_neg hcp]
      rw [hib, h0]

/-! ## The accesses of the fill loop -/

/-- Every iteration of the fill loop reads a pixel inside the sequence, passes `getGrb` a
component index the cursor may hold, and writes inside the first `size` bytes, whatever the
fuel. -/
theorem fillAccesses_bounds (pixels : List Rgb) (size : Nat) :
    ∀ (fuel : Nat) (s : FillState), s.component_idx ≤ 2 →
      ∀ acc ∈ fillAccesses pixels size fuel s,
        acc.pixel_index < pixels.length ∧ acc.component ≤ 2 ∧ acc.offset < size := by
  intro fuel
  induction fuel with
  | zero =>
    intro s _ acc hacc
    simp [fillAccesses] at hacc
  | succ fuel ih =>
    intro s hc acc hacc
    by_cases h : s.buffer_pos < size ∧ s.frame_idx < pixels.length
    · by_cases hc3 : s.component_idx + 1 ≥ 3
      · simp only [fillAccesses, dif_pos h, if_pos hc3, List.mem_cons] at hacc
        rcases hacc with rfl | hrest
        · exact ⟨h.2, hc, h.1⟩
        · exact ih _ (by simp) acc hrest
      · simp only [fillAccesses, dif_pos h, if_neg hc3, List.mem_cons] at hacc
        rcases hacc with rfl | hrest
        · exact ⟨h.2, hc, h.1⟩
        · exact ih _ (by simp only []; omega) acc hrest
    · simp [fillAccesses, dif_neg h] at hacc

/-- The accesses are those of `fillLoop`: with the same fuel, the loop has advanced `buffer_pos`
by one for each access, and they never number more than the bytes left in the buffer. -/
theorem fillAccesses_length (pixels : List Rgb) (size : Nat) :
    ∀ (fuel : Nat) (s : FillState),
      s.buffer_pos + (fillAccesses pixels size fuel s).length =
        (fillLoop pixels size fuel s).buffer_pos ∧
      (fillAccesses pixels size fuel s).length ≤ size - s.buffer_pos := by
  intro fuel
  induction fuel with
  | zero =>
    intro s
    simp [fillAccesses, fillLoop]
  | succ fuel ih =>
    intro s
    by_cases h : s.buffer_pos < size ∧ s.frame_idx < pixels.length
    · by_cases hc3 : s.component_idx + 1 ≥ 3
      · simp only [fillAccesses, fillLoop, dif_pos h, if_pos hc3, List.length_cons]
        obtain ⟨i1, i2⟩ := ih
          { buf := s.buf.set s.buffer_pos (pixels[s.frame_idx].getGrb s.component_idx)
            buffer_pos := s.buffer_pos + 1, frame_idx := s.frame_idx + 1, component_idx := 0 }
        simp only [] at i1 i2
        omega
      · simp only [fillAccesses, fillLoop, dif_pos h, if_neg hc3, List.length_cons]
        obtain ⟨i1, i2⟩ := ih
          { buf := s.buf.set s.buffer_pos (pixels[s.frame_idx].getGrb s.component_idx)
            buffer_pos := s.buffer_pos + 1, frame_idx := s.frame_idx
            component_idx := s.component_idx + 1 }
        simp only [] at i1 i2
        omega
    · simp [fillAccesses, fillLoop, dif_neg h]

/-- More fuel than the bytes left in the buffer changes nothing: the loop has exited. -/
theorem fillLoop_stable (pixels : List Rgb) (size : Nat) :
    ∀ (fuel : Nat) (s : FillState), size - s.buffer_pos ≤ fuel →
      ∀ extra, fillLoop pixels size (fuel + extra) s = fillLoop pixels size fuel s := by
  intro fuel
  induction fuel with
  | zero =>
    intro s hfuel extra
    have h : ¬ (s.buffer_pos < size ∧ s.frame_idx < pixels.length) := by omega
    cases extra with
    | zero => rfl
    | succ e => simp only [Nat.zero_add, fillLoop, dif_neg h]
  | succ fuel ih =>
    intro s hfuel extra
    rw [show fuel + 1 + extra = (fuel + extra) + 1 by omega]
    by_cases h : s.buffer_pos < size ∧ s.frame_idx < pixels.length
    · by_cases hc3 : s.component_idx + 1 ≥ 3
      · simp only [fillLoop, dif_pos h, if_pos hc3]
        exact ih _ (by simp only []; omega) extra
      · simp only [fillLoop, dif_pos h, if_neg hc3]
        exact ih _ (by simp only []; omega) extra
    · simp only [fillLoop, dif_neg h]

/-- C11: `encReset` is total and idempotent: from every session state it returns `ESP_OK` and
leaves `frame_idx = 0`, `component_idx = 0` and `last_state = RMT_ENCODING_COMPLETE`; a second
`encReset` returns the same and changes nothing more; the scratch buffer (dynamic or static),
the buffer handed to the bytes encoder, `buffer_len`, `buffer_size` and `reset_code` are as
before. -/
theorem C11_encReset_idempotent (m : Machine) :
    (encReset m).1 = ESP_OK ∧
    (encReset m).2.self.frame_idx = 0 ∧
    (encReset m).2.self.component_idx = 0 ∧
    (encReset m).2.self.last_state = RMT_ENCODING_COMPLETE ∧
    encReset (encReset m).2 = encReset m ∧
    scratch (encReset m).2 = scratch m ∧
    encodeBuffer (encReset m).2 = encodeBuffer m ∧
    (encReset m).2.self.buffer = m.self.buffer ∧
    (encReset m).2.fallback_buffer_fill = m.fallback_buffer_fill ∧
    (encReset m).2.fallback_buffer_encode = m.fallback_buffer_encode ∧
    (encReset m).2.self.buffer_len = m.self.buffer_len ∧
    (encReset m).2.self.buffer_size = m.self.buffer_size ∧
    (encReset m).2.self.reset_code = m.self.reset_code := by
  simp [encReset, scratch, encodeBuffer]

/-- C12: in every session state whose `last_state` lacks the completion bit, an `encEncode`
invocation takes the continuation path: `frame_idx`, `component_idx`, `buffer_len` and the
scratch buffer are unchanged, the bytes encoder is called with the buffer and the `buffer_len`
of the state (the same ones as in the invocation that left this state, when that one called the
bytes encoder), the returned count is the one the bytes encoder produced, its state is recorded
in `last_state`, and the reported state is `RMT_ENCODING_MEM_FULL` exactly when that state has
the memory-full bit, else 0. -/
theorem C12_mid_chunk_continuation (m : Machine) (pixels : List Rgb) (a : SubAnswer)
    (h : hasFlag m.self.last_state RMT_ENCODING_COMPLETE = false) :
    (encEncode m pixels a).branch = Branch.continuedChunk ∧
    (encEncode m pixels a).machine.self.frame_idx = m.self.frame_idx ∧
    (encEncode m pixels a).machine.self.component_idx = m.self.component_idx ∧
    (encEncode m pixels a).machine.self.buffer_len = m.self.buffer_len ∧
    scratch (encEncode m pixels a).machine = scratch m ∧
    encodeBuffer (encEncode m pixels a).machine = encodeBuffer m ∧
    (encEncode m pixels a).handed = Delegated.toBytes (encodeBuffer m) m.self.buffer_len ∧
    (encEncode m pixels a).symbols = a.symbols ∧
    (encEncode m pixels a).machine.self.last_state = a.state ∧
    ((encEncode m pixels a).ret_state = RMT_ENCODING_MEM_FULL ↔
      hasFlag a.state RMT_ENCODING_MEM_FULL = true) ∧
    (hasFlag a.state RMT_ENCODING_MEM_FULL = false → (encEncode m pixels a).ret_state = 0) ∧
    (∀ (m0 : Machine) (a0 : SubAnswer), m = (encEncode m0 pixels a0).machine →
      (encEncode m0 pixels a0).branch ≠ Branch.resetSymbol →
      (encEncode m pixels a).handed = (encEncode m0 pixels a0).handed) := by
  rw [encEncode_continue m pixels a h]
  simp only []
  obtain ⟨w1, _, _, w4, w5, w6, w7⟩ := withLastState_facts m a.state
  refine ⟨by trivial, w5, w4, w6, w1, by simp [withLastState, encodeBuffer], by trivial,
    by trivial, w7, ?_, ?_, ?_⟩
  · by_cases hf : hasFlag a.state RMT_ENCODING_MEM_FULL = true
    · simp [hf]
    · simp [hf, RMT_ENCODING_MEM_FULL]
  · intro hf
    simp [hf]
  · intro m0 a0 hm hb
    have henc : ∀ (x : Machine) (st : Nat),
        encodeBuffer (withLastState x st) = encodeBuffer x := by
      intro x st
      simp [withLastState, encodeBuffer]
    by_cases h1 : hasFlag m0.self.last_state RMT_ENCODING_COMPLETE = true
    · by_cases h2 : m0.self.frame_idx = pixels.length
      · rw [encEncode_reset m0 pixels a0 ⟨h1, h2⟩] at hb
        exact absurd rfl hb
      · rw [encEncode_fill m0 pixels a0 h1 h2] at hm ⊢
        simp only [] at hm ⊢
        rw [hm, henc, (withLastState_facts _ _).2.2.2.2.2.1]
    · have h1f : hasFlag m0.self.last_state RMT_ENCODING_COMPLETE = false := by
        simpa using h1
      rw [encEncode_continue m0 pixels a0 h1f] at hm ⊢
      simp only [] at hm ⊢
      rw [hm, henc, (withLastState_facts _ _).2.2.2.2.2.1]

/-- C12, on the scenario: the first chunk is answered with memory-full, so the second
invocation continues it with the same six bytes. -/
theorem C12_mid_chunk_continuation_witness :
    hasFlag (runFinal scenarioPixels (resetSession (newSession scenarioPlatform scenarioTiming 5))
      [answerMemFull]).self.last_state RMT_ENCODING_COMPLETE = false ∧
    (encEncode (runFinal scenarioPixels
      (resetSession (newSession scenarioPlatform scenarioTiming 5)) [answerMemFull])
      scenarioPixels answerComplete).handed = Delegated.toBytes [0, 255, 0, 255, 0, 0] 6 ∧
    (encEncode (runFinal scenarioPixels
      (resetSession (newSession scenarioPlatform scenarioTiming 5)) [answerMemFull])
      scenarioPixels answerComplete).branch = Branch.continuedChunk :=
  ⟨by decide, by decide,
    (C12_mid_chunk_continuation
      (runFinal scenarioPixels (resetSession (newSession scenarioPlatform scenarioTiming 5))
        [answerMemFull]) scenarioPixels answerComplete (by decide)).1⟩

/-- C13 (as stated, refuted): on the platform of the scenario `init` succeeds with a profile
whose `T0H` is 1,638,400 ns; the quotient `ns / 50` is 32768, and the duration field holds 0. -/
theorem C13_duration_wraps_counterexample :
    (RmtDriver.init scenarioPlatform (RmtDriver.ctor longPulseTiming 5)).err = ESP_OK ∧
    longPulseTiming.T0H / 50 = 32768 ∧
    (RmtDriver.init scenarioPlatform (RmtDriver.ctor longPulseTiming 5)).bytes_cfg.bit0.duration0
      = 0 ∧
    (RmtDriver.init scenarioPlatform (RmtDriver.ctor longPulseTiming 5)).bytes_cfg.bit0.duration0
      ≠ longPulseTiming.T0H / 50 := by
  decide

/-- C13 (amended): for every timing profile with which `init` succeeds, each of the five stored
durations is `(ns / 50) mod 2^15`; it is the truncating quotient `ns / 50` itself exactly when
the quotient is below `2^15`.  Whether `init` succeeds does not depend on the profile. -/
theorem C13_duration_fits_iff (pf : Platform) (timing : LedType) (count : Nat)
    (hok : (RmtDriver.init pf (RmtDriver.ctor timing count)).err = ESP_OK) :
    ((RmtDriver.init pf (RmtDriver.ctor timing count)).bytes_cfg.bit0.duration0 =
        timing.T0H / 50 ↔ timing.T0H / 50 < 2 ^ 15) ∧
    ((RmtDriver.init pf (RmtDriver.ctor timing count)).bytes_cfg.bit0.duration1 =
        timing.T0L / 50 ↔ timing.T0L / 50 < 2 ^ 15) ∧
    ((RmtDriver.init pf (RmtDriver.ctor timing count)).bytes_cfg.bit1.duration0 =
        timing.T1H / 50 ↔ timing.T1H / 50 < 2 ^ 15) ∧
    ((RmtDriver.init pf (RmtDriver.ctor timing count)).bytes_cfg.bit1.duration1 =
        timing.T1L / 50 ↔ timing.T1L / 50 < 2 ^ 15) ∧
    ((RmtDriver.init pf (RmtDriver.ctor timing count)).driver._encoder.reset_code.duration0 =
        timing.TRS / 50 ↔ timing.TRS / 50 < 2 ^ 15) ∧
    (∀ other : LedType, (RmtDriver.init pf (RmtDriver.ctor other count)).err = ESP_OK) := by
  have h50 : RMT_NS_PER_TICK = 50 := by decide
  have hst : ∀ v : Nat, storeDuration (toUint16 v) = v % 2 ^ 15 ∧ storeDuration v = v % 2 ^ 15 := by
    intro v
    unfold storeDuration toUint16
    exact ⟨Nat.mod_mod_of_dvd v (by decide), rfl⟩
  have hiff : ∀ v : Nat, (v % 2 ^ 15 = v ↔ v < 2 ^ 15) := by
    intro v
    constructor
    · intro hv
      rw [← hv]
      exact Nat.mod_lt v (by decide)
    · exact Nat.mod_eq_of_lt
  have hother : ∀ other : LedType,
      (RmtDriver.init pf (RmtDriver.ctor other count)).err = ESP_OK := by
    intro other
    rw [(init_outcome pf (RmtDriver.ctor other count)).1]
    rw [(init_outcome pf (RmtDriver.ctor timing count)).1] at hok
    exact hok
  obtain ⟨hcfg, hrst⟩ := init_durations pf (RmtDriver.ctor timing count)
  rw [hcfg, hrst]
  simp only [initBytesConfig, RmtDriver.ctor, h50]
  exact ⟨by rw [(hst _).1]; exact hiff _, by rw [(hst _).1]; exact hiff _,
    by rw [(hst _).1]; exact hiff _, by rw [(hst _).1]; exact hiff _,
    by rw [(hst _).2]; exact hiff _, hother⟩

/-- C13 (amended), on the scenario: the WS2812 profile fits, and `T0H = 350` ns is stored
as 7. -/
theorem C13_duration_fits_iff_witness :
    (RmtDriver.init scenarioPlatform (RmtDriver.ctor scenarioTiming 5)).err = ESP_OK ∧
    scenarioTiming.T0H / 50 < 2 ^ 15 ∧
    (RmtDriver.init scenarioPlatform (RmtDriver.ctor scenarioTiming 5)).bytes_cfg.bit0.duration0 =
      scenarioTiming.T0H / 50 :=
  ⟨by decide, by decide,
    (C13_duration_fits_iff scenarioPlatform scenarioTiming 5 (by decide)).1.2 (by decide)⟩

/-- C14: in every state that a channel reaches from `init` through any series of transmissions
(each an `encReset` followed by any number of `encEncode` invocations, with any answers of the
two sub-encoders), for the pixel count `N` of the transmission under way and the capacity
`C ≥ 1` of the channel: `frame_idx ≤ N`, `component_idx ≤ 2`, `buffer_len ≤ C`, and
`frame_idx = N` implies `component_idx = 0`. -/
theorem C14_session_invariant (pf : Platform) (timing : LedType) (count C : Nat)
    (history : List (List Rgb × List SubAnswer)) (pixels : List Rgb) (answers : List SubAnswer)
    (hC : 1 ≤ C) (hpf : pf.SOC_RMT_MEM_WORDS_PER_CHANNEL / 8 = C) :
    (transmit (sessionAfter (newSession pf timing count) history) pixels answers).self.frame_idx
      ≤ pixels.length ∧
    (transmit (sessionAfter (newSession pf timing count) history) pixels
      answers).self.component_idx ≤ 2 ∧
    (transmit (sessionAfter (newSession pf timing count) history) pixels answers).self.buffer_len
      ≤ C ∧
    ((transmit (sessionAfter (newSession pf timing count) history) pixels answers).self.frame_idx
      = pixels.length →
      (transmit (sessionAfter (newSession pf timing count) history) pixels
        answers).self.component_idx = 0) := by
  have _ := hC
  obtain ⟨n1, n2⟩ := newSession_facts pf timing count
  have n3 := newSession_buffer_len pf timing count
  obtain ⟨s1, s2, s3⟩ := sessionAfter_invariant history (newSession pf timing count) n1
    (by rw [n3]; omega)
  obtain ⟨⟨_, t1, t2⟩, _, t4⟩ := transmit_invariant pixels
    (sessionAfter (newSession pf timing count) history) answers s1 (by rw [s2]; exact s3)
  rw [s2, n2, hpf] at t4
  unfold cursor at t2
  exact ⟨by omega, t1, t4, fun h => by omega⟩

/-- C14, on the scenario: a first transmission cut short in the middle of its second chunk, then
a second one run to the end of the pixels. -/
theorem C14_session_invariant_witness :
    1 ≤ 6 ∧ scenarioPlatform.SOC_RMT_MEM_WORDS_PER_CHANNEL / 8 = 6 ∧
    (transmit (sessionAfter (newSession scenarioPlatform scenarioTiming 5)
      [(scenarioPixels, [answerComplete, answerMemFull])]) scenarioPixels
      [answerComplete, answerComplete, answerComplete]).self.frame_idx = 5 ∧
    (transmit (sessionAfter (newSession scenarioPlatform scenarioTiming 5)
      [(scenarioPixels, [answerComplete, answerMemFull])]) scenarioPixels
      [answerComplete, answerComplete, answerComplete]).self.buffer_len ≤ 6 :=
  ⟨by decide, by decide, by decide,
    (C14_session_invariant scenarioPlatform scenarioTiming 5 6
      [(scenarioPixels, [answerComplete, answerMemFull])] scenarioPixels
      [answerComplete, answerComplete, answerComplete] (by decide) (by decide)).2.2.1⟩

/-- C15: an `encEncode` invocation that takes a byte-encoding path (fill or continuation)
reports 0 or `RMT_ENCODING_MEM_FULL`, never a state with the completion bit, whatever the bytes
encoder answers; a reported state with the completion bit comes from the reset-symbol path,
which is taken exactly when `frame_idx = N` and the last chunk was recorded complete.  In a
replay from a reset session, when that happens the chunks filled so far are the whole
wire-order stream of the pixels. -/
theorem C15_completion_only_after_all_pixels (pixels : List Rgb) (m : Machine)
    (answers : List SubAnswer) (hwf : WellFormed m) :
    (∀ (s : Machine) (a : SubAnswer),
      ((encEncode s pixels a).branch ≠ Branch.resetSymbol →
        ((encEncode s pixels a).ret_state = 0 ∨
          (encEncode s pixels a).ret_state = RMT_ENCODING_MEM_FULL) ∧
        hasFlag (encEncode s pixels a).ret_state RMT_ENCODING_COMPLETE = false) ∧
      (hasFlag (encEncode s pixels a).ret_state RMT_ENCODING_COMPLETE = true →
        (encEncode s pixels a).branch = Branch.resetSymbol) ∧
      ((encEncode s pixels a).branch = Branch.resetSymbol ↔
        (hasFlag s.self.last_state RMT_ENCODING_COMPLETE = true ∧
          s.self.frame_idx = pixels.length))) ∧
    (∀ a : SubAnswer,
      hasFlag (encEncode (runFinal pixels (resetSession m) answers) pixels a).ret_state
        RMT_ENCODING_COMPLETE = true →
      (runFinal pixels (resetSession m) answers).self.frame_idx = pixels.length ∧
      (chunks (run pixels (resetSession m) answers)).flatten = wireBytes pixels) := by
  have hret : ∀ st : Nat,
      ((if hasFlag st RMT_ENCODING_MEM_FULL = true then RMT_ENCODING_MEM_FULL else 0) = 0 ∨
        (if hasFlag st RMT_ENCODING_MEM_FULL = true then RMT_ENCODING_MEM_FULL else 0) =
          RMT_ENCODING_MEM_FULL) ∧
      hasFlag (if hasFlag st RMT_ENCODING_MEM_FULL = true then RMT_ENCODING_MEM_FULL else 0)
        RMT_ENCODING_COMPLETE = false := by
    intro st
    by_cases hf : hasFlag st RMT_ENCODING_MEM_FULL = true
    · rw [if_pos hf]
      exact ⟨Or.inr rfl, by decide⟩
    · rw [if_neg hf]
      exact ⟨Or.inl rfl, by decide⟩
  have hcall : ∀ (s : Machine) (a : SubAnswer),
      ((encEncode s pixels a).branch ≠ Branch.resetSymbol →
        ((encEncode s pixels a).ret_state = 0 ∨
          (encEncode s pixels a).ret_state = RMT_ENCODING_MEM_FULL) ∧
        hasFlag (encEncode s pixels a).ret_state RMT_ENCODING_COMPLETE = false) ∧
      (hasFlag (encEncode s pixels a).ret_state RMT_ENCODING_COMPLETE = true →
        (encEncode s pixels a).branch = Branch.resetSymbol) ∧
      ((encEncode s pixels a).branch = Branch.resetSymbol ↔
        (hasFlag s.self.last_state RMT_ENCODING_COMPLETE = true ∧
          s.self.frame_idx = pixels.length)) := by
    intro s a
    by_cases h1 : hasFlag s.self.last_state RMT_ENCODING_COMPLETE = true
    · by_cases h2 : s.self.frame_idx = pixels.length
      · rw [encEncode_reset s pixels a ⟨h1, h2⟩]
        exact ⟨fun h => absurd rfl h, fun _ => rfl, fun _ => ⟨h1, h2⟩, fun _ => rfl⟩
      · rw [encEncode_fill s pixels a h1 h2]
        refine ⟨fun _ => hret a.state, fun h => ?_, fun h => ?_, fun h => absurd h.2 h2⟩
        · have := (hret a.state).2
          simp only [] at h
          rw [this] at h
          exact absurd h (by decide)
        · simp at h
    · have h1f : hasFlag s.self.last_state RMT_ENCODING_COMPLETE = false := by
        simpa using h1
      rw [encEncode_continue s pixels a h1f]
      refine ⟨fun _ => hret a.state, fun h => ?_, fun h => ?_, fun h => absurd h.1 h1⟩
      · have := (hret a.state).2
        simp only [] at h
        rw [this] at h
        exact absurd h (by decide)
      · simp at h
  refine ⟨hcall, ?_⟩
  intro a hdone
  have hb := (hcall (runFinal pixels (resetSession m) answers) a).2.1 hdone
  have hfr := ((hcall (runFinal pixels (resetSession m) answers) a).2.2.1 hb).2
  obtain ⟨i1, _, i3⟩ := run_stream pixels answers (resetSession m) (resetSession_inv pixels m hwf)
  have hcur := (frame_idx_eq_iff pixels _ i1).1 hfr
  have hlen := wireBytes_length pixels
  rw [(resetSession_facts m).2.2.1, hcur, List.take_zero, List.nil_append,
    List.take_of_length_le (by omega)] at i3
  exact ⟨hfr, i3⟩

/-- C15, on the scenario: after three completed chunks the fourth invocation passes on the
completion that the copy encoder reports, and the chunks are the whole stream. -/
theorem C15_completion_only_after_all_pixels_witness :
    WellFormed (newSession scenarioPlatform scenarioTiming 5) ∧
    hasFlag (encEncode (runFinal scenarioPixels
      (resetSession (newSession scenarioPlatform scenarioTiming 5))
      [answerComplete, answerComplete, answerComplete]) scenarioPixels
      { symbols := 1, state := RMT_ENCODING_COMPLETE }).ret_state RMT_ENCODING_COMPLETE = true ∧
    (chunks (run scenarioPixels (resetSession (newSession scenarioPlatform scenarioTiming 5))
      [answerComplete, answerComplete, answerComplete])).flatten = wireBytes scenarioPixels :=
  ⟨by decide, by decide,
    ((C15_completion_only_after_all_pixels scenarioPixels
      (newSession scenarioPlatform scenarioTiming 5)
      [answerComplete, answerComplete, answerComplete] (by decide)).2
      { symbols := 1, state := RMT_ENCODING_COMPLETE } (by decide)).2⟩

/-- C16: in a fill that starts with `frame_idx ≤ N` and `component_idx ≤ 2`, on a buffer of
capacity `C`, every iteration of the loop reads a pixel at an index below `N`, calls `getGrb`
with a component index of at most 2 and writes the buffer at an offset below `C`; there are at
most `C` iterations, as many as the `buffer_pos` the loop ends with, and after `C` iterations
the loop guard is false, so that further iterations change nothing. -/
theorem C16_fill_loop_bounds (pixels : List Rgb) (C : Nat) (m : Machine)
    (hf : m.self.frame_idx ≤ pixels.length) (hc : m.self.component_idx ≤ 2)
    (hcap : capacity m = C) :
    (∀ fuel, ∀ acc ∈ fillAccesses pixels C fuel (fillStart m),
      acc.pixel_index < pixels.length ∧ acc.component ≤ 2 ∧ acc.offset < C) ∧
    (∀ fuel, (fillAccesses pixels C fuel (fillStart m)).length ≤ C) ∧
    (fillAccesses pixels C C (fillStart m)).length = (fillResult m pixels).buffer_pos ∧
    ¬ ((fillResult m pixels).buffer_pos < C ∧ (fillResult m pixels).frame_idx < pixels.length) ∧
    (∀ extra, fillLoop pixels C (C + extra) (fillStart m) = fillResult m pixels) ∧
    (fillChunk m pixels).self.buffer_len = (fillResult m pixels).buffer_pos := by
  have _ := hf
  have hres : fillResult m pixels = fillLoop pixels C C (fillStart m) := by
    unfold fillResult fillStart
    rw [hcap]
  have hpos : (fillStart m).buffer_pos = 0 := rfl
  refine ⟨fun fuel => fillAccesses_bounds pixels C fuel (fillStart m) hc, fun fuel => ?_, ?_, ?_,
    fun extra => ?_, (fillChunk_cursor m pixels).2.2⟩
  · have h := (fillAccesses_length pixels C fuel (fillStart m)).2
    rw [hpos] at h
    omega
  · have h := (fillAccesses_length pixels C C (fillStart m)).1
    rw [hpos] at h
    rw [hres]
    omega
  · rw [hres]
    exact fillLoop_exits pixels C C (fillStart m) (by rw [hpos]; omega)
  · rw [hres]
    exact fillLoop_stable pixels C C (fillStart m) (by rw [hpos]; omega) extra

/-- C16, on the scenario: the third fill starts at pixel 4 and makes exactly the three accesses
of that pixel. -/
theorem C16_fill_loop_bounds_witness :
    (runFinal scenarioPixels (resetSession (newSession scenarioPlatform scenarioTiming 5))
      [answerComplete, answerComplete]).self.frame_idx ≤ scenarioPixels.length ∧
    (runFinal scenarioPixels (resetSession (newSession scenarioPlatform scenarioTiming 5))
      [answerComplete, answerComplete]).self.component_idx ≤ 2 ∧
    fillAccesses scenarioPixels 6 6 (fillStart (runFinal scenarioPixels
      (resetSession (newSession scenarioPlatform scenarioTiming 5))
      [answerComplete, answerComplete])) =
      [{ pixel_index := 4, component := 0, offset := 0 },
       { pixel_index := 4, component := 1, offset := 1 },
       { pixel_index := 4, component := 2, offset := 2 }] ∧
    (fillAccesses scenarioPixels 6 6 (fillStart (runFinal scenarioPixels
      (resetSession (newSession scenarioPlatform scenarioTiming 5))
      [answerComplete, answerComplete]))).length ≤ 6 :=
  ⟨by decide, by decide, by decide,
    (C16_fill_loop_bounds scenarioPixels 6
      (runFinal scenarioPixels (resetSession (newSession scenarioPlatform scenarioTiming 5))
        [answerComplete, answerComplete]) (by decide) (by decide) (by decide)).2.1 6⟩

/-- C17 (the code at the failing input): with a table of 8 channels, `channel = -1` passes the
assertion `channel < CHANNEL_COUNT` and the table is indexed at -1, outside it; channel 3 is
inside the table and channel 8 is stopped by the assertion. -/
theorem C17_negative_channel_passes_assertion :
    ((-1 : Int) < 8) ∧
    ledForChannel 8 (-1) = TableAccess.outsideTable (-1) ∧
    ledForChannel 8 3 = TableAccess.slot 3 ∧
    ledForChannel 8 8 = TableAccess.assertionFailed := by
  decide

end SmartLeds
